import Mathlib

set_option maxRecDepth 4000

/-!
Shallow embedding of the `archive` Go package (files `helpers.go`, `hasher.go`
and the unnamed inflate source file).

Modelling conventions:
* A filesystem path is a list of components below the absolute root `/`.
* The filesystem is an association list from paths to nodes; `os` primitives
  (`MkdirAll`, `OpenFile`, `Symlink`, `Link`, `Rename`, `Remove`, `RemoveAll`,
  `Create`) are modelled by their POSIX behaviour on absolute, symlink-free
  paths.
* `filepath.Join`, `filepath.Rel`, `filepath.Clean` and `filepath.Dir` are
  modelled by their documented lexical algorithms, specialised to absolute
  base paths (splitting on `/`, dropping empty and `.` segments, resolving
  `..` against the accumulated prefix).  `ensureDir`'s `Abs`/`EvalSymlinks`
  canonicalisation is the identity under the symlink-free absolute-path
  assumption.
* Symbolic links are followed where the POSIX calls follow them
  (`open`/`stat` resolve final-component and parent symlink chains,
  fuel-bounded like the kernel's ELOOP limit; `O_EXCL`, `symlink`, `link`
  and `mkdir` do not follow the final component; `link` refuses directory
  targets with `EPERM`).  Nodes are tracked by path name, not inode.
* Byte streams are lists of bytes plus a read position; the tar/gzip/xz/zip
  decoders (Go library collaborators, not code of this repository) are
  parameters producing the decoded entry list, so that the control flow of
  `InflateTar`/`InflateTarGz`/`InflateTarXz`/`InflateZip` is translated
  statement by statement.
-/

namespace Archive

instance {e a : Type} [DecidableEq e] [DecidableEq a] : DecidableEq (Except e a) :=
  fun x y =>
    match x, y with
    | .ok u, .ok v =>
      if h : u = v then .isTrue (by rw [h]) else .isFalse (by simp [h])
    | .ok _, .error _ => .isFalse (by simp)
    | .error _, .ok _ => .isFalse (by simp)
    | .error u, .error v =>
      if h : u = v then .isTrue (by rw [h]) else .isFalse (by simp [h])

abbrev Path := List String

inductive Node where
  | dir (mode : Nat)
  | file (content : List Nat) (mode : Nat)
  | symlink (target : String)
  | hardlink (target : Path)
deriving DecidableEq, Repr

abbrev FS := List (Path × Node)

/-- Boolean test: `p` is an ancestor-or-self of `q` (component-wise). -/
def isPre : Path → Path → Bool
  | [], _ => true
  | _ :: _, [] => false
  | a :: as, b :: bs => a == b && isPre as bs

/-- Split a list of characters on a separator, keeping empty chunks
(the raw behaviour of Go `strings.Split`). -/
def splitOnChar (sep : Char) : List Char → List (List Char)
  | [] => [[]]
  | c :: cs =>
    let r := splitOnChar sep cs
    if c = sep then [] :: r
    else
      match r with
      | [] => [[c]]
      | y :: ys => (c :: y) :: ys

/-- Go `strings.Split(s, "/")`. -/
def splitSlash (s : String) : List String :=
  (splitOnChar '/' s.data).map String.mk

/-- A raw segment that `filepath.Clean` keeps for further processing. -/
def keepComp (c : String) : Bool := c != "" && c != "."

def splitPathKeep (s : String) : List String :=
  (splitSlash s).filter keepComp

/-- Resolve `..` segments against the accumulated prefix: the cleaning pass of
`filepath.Clean` for rooted paths (a `..` at the root is dropped). -/
def cleanAbs (l : List String) : Path :=
  l.foldl (fun acc c => if c = ".." then acc.dropLast else acc ++ [c]) []

/-- Components of `filepath.Clean` applied to an absolute path string. -/
def pathComps (s : String) : Path :=
  cleanAbs (splitPathKeep s)

def intercalateSlash : List String → String
  | [] => ""
  | x :: xs => xs.foldl (fun acc c => acc ++ "/" ++ c) x

/-- The absolute path string denoted by a component list. -/
def compsToString (p : Path) : String :=
  if p = [] then "/" else "/" ++ intercalateSlash p

/-- Components of Go `filepath.Dir(s)` for an absolute `s`: everything up to
the final `/`, cleaned. -/
def goDirComps (s : String) : Path :=
  cleanAbs (((splitSlash s).dropLast).filter keepComp)

/-- Component walk of Go `filepath.Rel(base, targ)` for two cleaned absolute
paths: strip the common prefix, then one `..` per remaining base component
followed by the remaining target components. -/
def relComps : List String → List String → List String
  | [], t => t
  | b :: bs, [] => (b :: bs).map (fun _ => "..")
  | b :: bs, t :: ts =>
    if b = t then relComps bs ts
    else ((b :: bs).map (fun _ => "..")) ++ (t :: ts)

def relString (r : List String) : String :=
  if r = [] then "." else intercalateSlash r

/-- Go `strings.HasPrefix(s, "..")`. -/
def startsWithDotDot (s : String) : Bool :=
  match s.data with
  | c1 :: c2 :: _ => c1 == '.' && c2 == '.'
  | _ => false

inductive FsErr where
  | outside (file dir : String)
  | unsupportedType (code : Nat) (name : String)
  | alreadyExists (path : String)
  | notExist (path : String)
  | notADir (path : String)
  | renameFailed (oldPath newPath : String)
  | openFailed (name : String)
  | unknownFormat (name : String)
  | notPermitted (path : String)
  | tooManyLinks (path : String)
  | badHeader
deriving DecidableEq, Repr

/-- `helpers.go ensureFileInDir(dir, file)`: join the untrusted name to the
root, skip an entry resolving to the root itself, and reject a result whose
path relative to the root starts with `..`.  Returns `none` for the skip
(the Go code's empty-string sentinel), `some` of the joined path otherwise. -/
def ensureFileInDir (dir : Path) (file : String) : Except FsErr (Option Path) :=
  let joined := cleanAbs (dir ++ splitPathKeep file)
  if joined = dir then .ok none
  else if startsWithDotDot (relString (relComps dir joined)) then
    .error (.outside (compsToString joined) (compsToString dir))
  else .ok (some joined)

def fsLookup (fs : FS) (p : Path) : Option Node :=
  (fs.find? (fun kv => kv.1 == p)).map (fun kv => kv.2)

def fsInsert (fs : FS) (p : Path) (n : Node) : FS :=
  (p, n) :: fs.filter (fun kv => !(kv.1 == p))

/-- `os.Remove` (best effort, errors discarded by the callers that use it). -/
def fsRemove (fs : FS) (p : Path) : FS :=
  fs.filter (fun kv => !(kv.1 == p))

/-- `os.RemoveAll`: delete the path and everything below it. -/
def fsRemoveAll (fs : FS) (p : Path) : FS :=
  fs.filter (fun kv => !(isPre p kv.1))

/-- The node is a symbolic link. -/
def isSym : Node → Bool
  | Node.symlink _ => true
  | _ => false

/-- The filesystem contains no symbolic-link node. -/
def noSymNodes (fs : FS) : Prop :=
  ∀ kv ∈ fs, isSym kv.2 = false

/-- The node is a directory. -/
def isDirNode : Node → Bool
  | Node.dir _ => true
  | _ => false

/-- The target string of a symlink is absolute. -/
def isAbs (t : String) : Bool :=
  match t.data with
  | '/' :: _ => true
  | _ => false

/-- Path denoted by the target `t` of a symlink stored at `p` (POSIX: an
absolute target stands alone, a relative one is resolved against the link's
directory; `..` segments are resolved lexically in the model). -/
def symlinkDest (p : Path) (t : String) : Path :=
  if isAbs t then pathComps t else cleanAbs (p.dropLast ++ splitPathKeep t)

/-- The last component of a path, as a singleton list. -/
def lastComp (p : Path) : Path :=
  p.drop (p.length - 1)

/-- Follow a chain of symlink nodes stored at `p`, fuel-bounded like the
kernel's ELOOP limit; returns the first non-symlink path of the chain. -/
def followLinks (fs : FS) : Nat → Path → Option Path
  | 0, _ => none
  | Nat.succ fuel, p =>
    match fsLookup fs p with
    | some (Node.symlink t) => followLinks fs fuel (symlinkDest p t)
    | _ => some p

/-- The path names a directory: the root, or a stored directory node. -/
def dirAt (fs : FS) (p : Path) : Bool :=
  if p = [] then true
  else
    match fsLookup fs p with
    | some (Node.dir _) => true
    | _ => false

/-- `os.MkdirAll` along an explicit list of paths to ensure, in order.
Each path is `Stat`ed following symlink chains: a directory (also one
reached through symlinks) is kept, another existing node is `ENOTDIR`, a
symlink chain ending nowhere makes the inner `Mkdir` fail `EEXIST` on the
link itself, and an absent path is created.  (Created directories are
recorded under the path they were requested at; the model tracks nodes by
name, so a subtree grown beneath a symlinked ancestor keeps the link's own
spelling — the claims below only quantify over runs in which this cannot
happen.) -/
def mkdirAllList (mode : Nat) : FS → List Path → FS × Option FsErr
  | fs, [] => (fs, none)
  | fs, p :: rest =>
    match followLinks fs 40 p with
    | none => (fs, some (.tooManyLinks (compsToString p)))
    | some rp =>
      match fsLookup fs rp with
      | some (.dir _) => mkdirAllList mode fs rest
      | some _ => (fs, some (.notADir (compsToString rp)))
      | none =>
        if rp = p then mkdirAllList mode (fsInsert fs p (.dir mode)) rest
        else (fs, some (.alreadyExists (compsToString p)))

def prefixesOf (p : Path) : List Path :=
  (List.range p.length).map (fun i => p.take (i + 1))

/-- `os.MkdirAll(p, mode)`: ensure every ancestor of `p` and `p` itself. -/
def mkdirAll (fs : FS) (p : Path) (mode : Nat) : FS × Option FsErr :=
  mkdirAllList mode fs (prefixesOf p)

/-- `os.OpenFile(p, os.O_CREATE|os.O_WRONLY, mode)` followed by
`io.Copy(f, payload)`.  `open` follows a symlink in the final component —
even a dangling one, in which case the *target* file is created — and a
symlink at the recorded parent likewise redirects the write; recursion is
fuel-bounded (ELOOP).  An existing regular file is written from offset zero
without truncation and keeps its old mode; an absent file is created with
`mode` when its parent directory (or the root) exists.  (A hard-link node
names a second path of an existing file; writing through one aliases the
target inode, which the by-name model cannot express, so it is mapped to an
error — no claim below exercises it.) -/
def openWriteFuel (fs : FS) : Nat → Path → Nat → List Nat → FS × Option FsErr
  | 0, p, _, _ => (fs, some (.tooManyLinks (compsToString p)))
  | Nat.succ fuel, p, mode, payload =>
    match fsLookup fs p with
    | some (Node.symlink t) => openWriteFuel fs fuel (symlinkDest p t) mode payload
    | some (Node.file old m) =>
      (fsInsert fs p (Node.file (payload ++ old.drop payload.length) m), none)
    | some _ => (fs, some (.notADir (compsToString p)))
    | none =>
      match fsLookup fs p.dropLast with
      | some (Node.symlink t) =>
        openWriteFuel fs fuel (symlinkDest p.dropLast t ++ lastComp p) mode payload
      | _ =>
        if dirAt fs p.dropLast then (fsInsert fs p (Node.file payload mode), none)
        else (fs, some (.notExist (compsToString p.dropLast)))

def openWrite (fs : FS) (p : Path) (mode : Nat) (payload : List Nat) : FS × Option FsErr :=
  openWriteFuel fs 40 p mode payload

/-- `os.OpenFile(p, os.O_CREATE|os.O_EXCL, mode)`: `O_EXCL` does *not*
follow a symlink in the final component — any node there, a dangling
symlink included, is an already-exists failure; a symlink at the recorded
parent redirects (fuel-bounded). -/
def openExclFuel (fs : FS) : Nat → Path → Nat → FS × Option FsErr
  | 0, p, _ => (fs, some (.tooManyLinks (compsToString p)))
  | Nat.succ fuel, p, mode =>
    match fsLookup fs p with
    | some _ => (fs, some (.alreadyExists (compsToString p)))
    | none =>
      match fsLookup fs p.dropLast with
      | some (Node.symlink t) =>
        openExclFuel fs fuel (symlinkDest p.dropLast t ++ lastComp p) mode
      | _ =>
        if dirAt fs p.dropLast then (fsInsert fs p (Node.file [] mode), none)
        else (fs, some (.notExist (compsToString p.dropLast)))

def openExcl (fs : FS) (p : Path) (mode : Nat) : FS × Option FsErr :=
  openExclFuel fs 40 p mode

/-- `os.Create(p)` followed by `io.Copy` of the whole stream: like
`openWrite` it follows final and parent symlinks, but truncates an existing
regular file, and an absent file is created with the default `0666` mode. -/
def createFileFuel (fs : FS) : Nat → Path → List Nat → FS × Option FsErr
  | 0, p, _ => (fs, some (.tooManyLinks (compsToString p)))
  | Nat.succ fuel, p, data =>
    match fsLookup fs p with
    | some (Node.symlink t) => createFileFuel fs fuel (symlinkDest p t) data
    | some (Node.file _ m) => (fsInsert fs p (Node.file data m), none)
    | some _ => (fs, some (.notADir (compsToString p)))
    | none =>
      match fsLookup fs p.dropLast with
      | some (Node.symlink t) =>
        createFileFuel fs fuel (symlinkDest p.dropLast t ++ lastComp p) data
      | _ =>
        if dirAt fs p.dropLast then (fsInsert fs p (Node.file data 438), none)
        else (fs, some (.notExist (compsToString p.dropLast)))

def createFile (fs : FS) (p : Path) (data : List Nat) : FS × Option FsErr :=
  createFileFuel fs 40 p data

/-- `os.Symlink(target, p)`: symlink creation does not follow the final
component (any existing node there is `EEXIST`); a symlink at the recorded
parent redirects (fuel-bounded). -/
def symlinkCreateFuel (fs : FS) : Nat → String → Path → FS × Option FsErr
  | 0, _, p => (fs, some (.tooManyLinks (compsToString p)))
  | Nat.succ fuel, target, p =>
    match fsLookup fs p with
    | some _ => (fs, some (.alreadyExists (compsToString p)))
    | none =>
      match fsLookup fs p.dropLast with
      | some (Node.symlink t) =>
        symlinkCreateFuel fs fuel target (symlinkDest p.dropLast t ++ lastComp p)
      | _ =>
        if dirAt fs p.dropLast then (fsInsert fs p (Node.symlink target), none)
        else (fs, some (.notExist (compsToString p.dropLast)))

def symlinkCreate (fs : FS) (target : String) (p : Path) : FS × Option FsErr :=
  symlinkCreateFuel fs 40 target p

/-- `os.Link(oldp, newp)` (`link(2)`): the old path must exist and must not
be a directory — hard links to directories fail `EPERM` — and is not
dereferenced when it is a symlink (the hard link then names the symlink
itself); the new path must not exist (no final-component following), and a
symlink at its recorded parent redirects (fuel-bounded). -/
def linkCreateFuel (fs : FS) : Nat → Path → Path → FS × Option FsErr
  | 0, _, newp => (fs, some (.tooManyLinks (compsToString newp)))
  | Nat.succ fuel, oldp, newp =>
    match fsLookup fs oldp with
    | none => (fs, some (.notExist (compsToString oldp)))
    | some (Node.dir _) => (fs, some (.notPermitted (compsToString oldp)))
    | some _ =>
      match fsLookup fs newp with
      | some _ => (fs, some (.alreadyExists (compsToString newp)))
      | none =>
        match fsLookup fs newp.dropLast with
        | some (Node.symlink t) =>
          linkCreateFuel fs fuel oldp (symlinkDest newp.dropLast t ++ lastComp newp)
        | _ =>
          if dirAt fs newp.dropLast then (fsInsert fs newp (Node.hardlink oldp), none)
          else (fs, some (.notExist (compsToString newp.dropLast)))

def linkCreate (fs : FS) (oldp newp : Path) : FS × Option FsErr :=
  linkCreateFuel fs 40 oldp newp

/-- Move the subtree rooted at `oldp` to `newp`. -/
def fsMove (fs : FS) (oldp newp : Path) : FS :=
  fs.map (fun kv =>
    if isPre oldp kv.1 then (newp ++ kv.1.drop oldp.length, kv.2) else kv)

/-- `os.Rename(oldp, newp)` for a directory: fails if `newp` is occupied by a
non-directory or a non-empty directory; replaces an empty directory. -/
def fsRename (fs : FS) (oldp newp : Path) : FS × Option FsErr :=
  match fsLookup fs oldp with
  | none => (fs, some (.notExist (compsToString oldp)))
  | some _ =>
    match fsLookup fs newp with
    | some (.dir _) =>
      if fs.any (fun kv => isPre newp kv.1 && !(kv.1 == newp)) then
        (fs, some (.renameFailed (compsToString oldp) (compsToString newp)))
      else (fsMove (fsRemove fs newp) oldp newp, none)
    | some _ => (fs, some (.renameFailed (compsToString oldp) (compsToString newp)))
    | none => (fsMove fs oldp newp, none)

/-- A byte stream with a read position. -/
structure Stream where
  data : List Nat
  pos : Nat
deriving DecidableEq, Repr

/-- `drain(reader)`: `io.ReadAll` the remaining bytes. -/
def drain (s : Stream) : Stream :=
  { s with pos := s.data.length }

inductive TarType where
  | dir
  | reg
  | symlink
  | link
  | other (code : Nat)
deriving DecidableEq, Repr

/-- One decoded tar header plus its payload.  `mode` stands for
`header.FileInfo().Mode()` (the normalised view used by the code). -/
structure TarEntry where
  typeflag : TarType
  name : String
  linkname : String
  mode : Nat
  content : List Nat
deriving DecidableEq, Repr

/-- The body of `InflateTar`'s per-entry switch (after the
`pax_global_header` skip). -/
def inflateTarEntry (fs : FS) (path : String) (tmp : Path) (e : TarEntry) :
    FS × Option FsErr :=
  match ensureFileInDir tmp e.name with
  | .error err => (fs, some err)
  | .ok none => (fs, none)
  | .ok (some name) =>
    match e.typeflag with
    | .dir => mkdirAll fs name e.mode
    | .reg =>
      match mkdirAll fs name.dropLast 448 with
      | (fs1, some err) => (fs1, some err)
      | (fs1, none) => openWrite fs1 name e.mode e.content
    | .symlink =>
      match mkdirAll fs name.dropLast 448 with
      | (fs1, some err) => (fs1, some err)
      | (fs1, none) => symlinkCreate fs1 e.linkname name
    | .link =>
      let linkname := path ++ "/" ++ e.linkname
      match mkdirAll fs name.dropLast 448 with
      | (fs1, some err) => (fs1, some err)
      | (fs1, none) =>
        match mkdirAll fs1 (goDirComps linkname) 448 with
        | (fs2, some err) => (fs2, some err)
        | (fs2, none) =>
          match openExcl fs2 (pathComps linkname) e.mode with
          | (fs3, none) => linkCreate fs3 (pathComps linkname) name
          | (fs3, some (.alreadyExists _)) => linkCreate fs3 (pathComps linkname) name
          | (fs3, some err) => (fs3, some err)
    | .other code => (fs, some (.unsupportedType code (compsToString name)))

/-- The entry loop of `InflateTar` (synthetic `pax_global_header` entries are
skipped before the containment check). -/
def inflateTarLoop (path : String) (tmp : Path) : FS → List TarEntry → FS × Option FsErr
  | fs, [] => (fs, none)
  | fs, e :: rest =>
    if e.name = "pax_global_header" then inflateTarLoop path tmp fs rest
    else
      match inflateTarEntry fs path tmp e with
      | (fs', none) => inflateTarLoop path tmp fs' rest
      | (fs', some err) => (fs', some err)

/-- `InflateTar(reader, path)`: create and canonicalise the staging directory
`path + ".tmp"`, run the entry loop, and at end-of-archive drain the reader
and rename the staging directory onto `path`.  On any error after the staging
directory was created, the deferred `os.RemoveAll` deletes it.  The decoded
entries stand for the output of `tar.NewReader` on the reader's contents. -/
def InflateTar (fs0 : FS) (entries : List TarEntry) (reader : Stream)
    (path : String) : (FS × Stream) × Option FsErr :=
  let tmp := pathComps (path ++ ".tmp")
  match mkdirAll fs0 tmp 448 with
  | (fs1, some err) => ((fs1, reader), some err)
  | (fs1, none) =>
    match inflateTarLoop path tmp fs1 entries with
    | (fs2, some err) => ((fsRemoveAll fs2 tmp, reader), some err)
    | (fs2, none) =>
      let reader' := drain reader
      match fsRename fs2 tmp (pathComps path) with
      | (fs3, some err) => ((fsRemoveAll fs3 tmp, reader'), some err)
      | (fs3, none) => ((fs3, reader'), none)

/-- `InflateTarGz(reader, path)`: `gz` stands for the result of
`gzip.NewReader` plus tar decoding — either a construction error or the
decoded entries together with the decompressed stream handed to `InflateTar`;
`reader` is the original compressed stream at whatever position the
decompressor left it.  On success the original stream is drained. -/
def InflateTarGz (fs0 : FS) (gz : Except FsErr (List TarEntry × Stream))
    (reader : Stream) (path : String) : (FS × Stream) × Option FsErr :=
  match gz with
  | .error err => ((fs0, reader), some err)
  | .ok (entries, decompressed) =>
    match InflateTar fs0 entries decompressed path with
    | ((fs1, _), some err) => ((fs1, reader), some err)
    | ((fs1, _), none) => ((fs1, drain reader), none)

/-- `InflateTarXz(reader, path)`: same shape as `InflateTarGz` with
`xz.NewReader` in place of `gzip.NewReader`. -/
def InflateTarXz (fs0 : FS) (xz : Except FsErr (List TarEntry × Stream))
    (reader : Stream) (path : String) : (FS × Stream) × Option FsErr :=
  match xz with
  | .error err => ((fs0, reader), some err)
  | .ok (entries, decompressed) =>
    match InflateTar fs0 entries decompressed path with
    | ((fs1, _), some err) => ((fs1, reader), some err)
    | ((fs1, _), none) => ((fs1, drain reader), none)

/-- One entry of the zip catalog; `openOk` records whether `zf.Open()`
succeeds for this entry. -/
structure ZipEntry where
  name : String
  isDir : Bool
  mode : Nat
  content : List Nat
  openOk : Bool
deriving DecidableEq, Repr

/-- The body of `InflateZip`'s per-entry loop. -/
def inflateZipEntry (fs : FS) (tmp : Path) (zf : ZipEntry) : FS × Option FsErr :=
  if !zf.openOk then (fs, some (.openFailed zf.name))
  else
    match ensureFileInDir tmp zf.name with
    | .error err => (fs, some err)
    | .ok none => (fs, none)
    | .ok (some dst) =>
      if zf.isDir then mkdirAll fs dst zf.mode
      else
        match mkdirAll fs dst.dropLast 448 with
        | (fs1, some err) => (fs1, some err)
        | (fs1, none) => openWrite fs1 dst zf.mode zf.content

def inflateZipLoop (tmp : Path) : FS → List ZipEntry → FS × Option FsErr
  | fs, [] => (fs, none)
  | fs, zf :: rest =>
    match inflateZipEntry fs tmp zf with
    | (fs', none) => inflateZipLoop tmp fs' rest
    | (fs', some err) => (fs', some err)

/-- The part of `InflateZip` after a seekable view of the stream exists:
read the catalog (`zip.NewReader`, modelled by `parse`), run the entry loop,
and rename the staging directory onto `path`. -/
def zipBody (fs : FS) (data : List Nat)
    (parse : List Nat → Except FsErr (List ZipEntry)) (tmp : Path)
    (path : String) : FS × Option FsErr :=
  match parse data with
  | .error err => (fs, some err)
  | .ok entries =>
    match inflateZipLoop tmp fs entries with
    | (fs', some err) => (fs', some err)
    | (fs', none) => fsRename fs' tmp (pathComps path)

/-- `InflateZip(reader, path)`: if the reader is already an `*os.File`
(`isFile`), it is used directly; otherwise the stream's full contents are
spooled into the temporary file `tmpPath + ".zip"`, which the deferred
`os.Remove` deletes on every path leaving the function after its creation.
The deferred `os.RemoveAll` deletes the staging directory on error. -/
def InflateZip (fs0 : FS) (isFile : Bool) (data : List Nat)
    (parse : List Nat → Except FsErr (List ZipEntry)) (path : String) :
    FS × Option FsErr :=
  let tmp := pathComps (path ++ ".tmp")
  match mkdirAll fs0 tmp 448 with
  | (fs1, some err) => (fs1, some err)
  | (fs1, none) =>
    if isFile then
      match zipBody fs1 data parse tmp path with
      | (fs2, none) => (fs2, none)
      | (fs2, some err) => (fsRemoveAll fs2 tmp, some err)
    else
      let tmpZip := pathComps (compsToString tmp ++ ".zip")
      match createFile fs1 tmpZip data with
      | (fs2, some err) => (fsRemoveAll fs2 tmp, some err)
      | (fs2, none) =>
        match zipBody fs2 data parse tmp path with
        | (fs3, none) => (fsRemove fs3 tmpZip, none)
        | (fs3, some err) => (fsRemoveAll (fsRemove fs3 tmpZip) tmp, some err)

inductive Format where
  | tar
  | targz
  | tarxz
  | zip
deriving DecidableEq, Repr

/-- Go `strings.HasSuffix`. -/
def hasSuffix (s suffix : String) : Bool :=
  List.isSuffixOf suffix.data s.data

/-- The dispatch switch of `Inflate(name, reader, path)`: suffixes are tested
in source order, `.tar` first. -/
def Inflate (name : String) : Except FsErr Format :=
  if hasSuffix name ".tar" then .ok .tar
  else if hasSuffix name ".tar.gz" || hasSuffix name ".tgz" then .ok .targz
  else if hasSuffix name ".tar.xz" then .ok .tarxz
  else if hasSuffix name ".zip" then .ok .zip
  else .error (.unknownFormat name)

inductive HashErr where
  | badFormat (spec : String)
  | unsupportedAlgo (algo : String)
  | mismatch (expected computed : String)
deriving DecidableEq, Repr

/-- `hasher.go HashingReader`: the wrapped stream's full contents, the
position consumed so far (everything read so far has been fed to the digest
accumulator through the tee reader), and the expected digest. -/
structure HashingReader where
  data : List Nat
  pos : Nat
  checksum : List Char
deriving DecidableEq, Repr

/-- Go `strings.SplitN(s, ":", 2)`: `none` when there is no colon, otherwise
the part before the first colon and everything after it. -/
def splitFirstColon : List Char → Option (List Char × List Char)
  | [] => none
  | c :: cs =>
    if c = ':' then some ([], cs)
    else (splitFirstColon cs).map (fun p => (c :: p.1, p.2))

/-- `NewHashingReader(reader, checksum)`. -/
def NewHashingReader (data : List Nat) (checksum : String) :
    Except HashErr HashingReader :=
  match splitFirstColon checksum.data with
  | none => .error (.badFormat checksum)
  | some (algo, digest) =>
    if algo = "sha256".data then
      .ok { data := data, pos := 0, checksum := digest }
    else .error (.unsupportedAlgo (String.mk algo))

def hexDigit (n : Nat) : Char :=
  if n < 10 then Char.ofNat (48 + n) else Char.ofNat (87 + n)

/-- `hex.EncodeToString`: lowercase hex, two digits per byte. -/
def hexEncode (bs : List Nat) : List Char :=
  (bs.map (fun b => [hexDigit (b % 256 / 16), hexDigit (b % 16)])).flatten

/-- `ValidateChecksum()`, parameterised by the digest function `h`
(`sha256` in the code): drain the remaining bytes through the tee reader,
hex-encode the digest of everything read, and compare. -/
def ValidateChecksum (h : List Nat → List Nat) (hr : HashingReader) :
    Except HashErr Unit × HashingReader :=
  if hexEncode (h (List.take hr.data.length hr.data)) ≠ hr.checksum then
    (.error (.mismatch (String.mk hr.checksum)
      (String.mk (hexEncode (h (List.take hr.data.length hr.data))))),
      { hr with pos := hr.data.length })
  else (.ok (), { hr with pos := hr.data.length })

end Archive

namespace Archive

/-! ### Prefix lemmas -/

theorem isPre_iff (a : Path) : ∀ b, isPre a b = true ↔ ∃ t, b = a ++ t := by
  induction a with
  | nil =>
    intro b
    simp [isPre]
  | cons x xs ih =>
    intro b
    cases b with
    | nil =>
      simp [isPre]
    | cons y ys =>
      simp only [isPre, Bool.and_eq_true, beq_iff_eq, List.cons_append,
        List.cons.injEq, ih]
      constructor
      · rintro ⟨hxy, t, ht⟩
        exact ⟨t, hxy.symm, ht⟩
      · rintro ⟨t, hyx, ht⟩
        exact ⟨hyx.symm, t, ht⟩

theorem isPre_refl (p : Path) : isPre p p = true :=
  (isPre_iff p p).2 ⟨[], by simp⟩

theorem isPre_append (p q : Path) : isPre p (p ++ q) = true :=
  (isPre_iff p (p ++ q)).2 ⟨q, rfl⟩

theorem isPre_trans {a b c : Path} (h1 : isPre a b = true) (h2 : isPre b c = true) :
    isPre a c = true := by
  obtain ⟨t, rfl⟩ := (isPre_iff a b).1 h1
  obtain ⟨s, rfl⟩ := (isPre_iff (a ++ t) c).1 h2
  exact (isPre_iff _ _).2 ⟨t ++ s, by simp⟩

theorem isPre_total {a b c : Path} (h1 : isPre a c = true) (h2 : isPre b c = true) :
    isPre a b = true ∨ isPre b a = true := by
  obtain ⟨s, hs⟩ := (isPre_iff a c).1 h1
  obtain ⟨t, ht⟩ := (isPre_iff b c).1 h2
  have h := hs.symm.trans ht
  rcases List.append_eq_append_iff.1 h with ⟨u, hu, _⟩ | ⟨u, hu, _⟩
  · exact Or.inl ((isPre_iff a b).2 ⟨u, hu⟩)
  · exact Or.inr ((isPre_iff b a).2 ⟨u, hu⟩)

theorem isPre_dropLast (p : Path) : isPre p.dropLast p = true := by
  cases hp : p with
  | nil => simp [isPre]
  | cons x xs =>
    rw [← hp]
    have hne : p ≠ [] := by simp [hp]
    exact (isPre_iff _ _).2 ⟨[p.getLast hne], (List.dropLast_append_getLast hne).symm⟩

theorem notPre_extend {p t : Path} (h1 : isPre p t = false) (h2 : isPre t p = false)
    (e : Path) : isPre p (t ++ e) = false := by
  cases hx : isPre p (t ++ e) with
  | false => rfl
  | true =>
    rcases isPre_total hx (isPre_append t e) with hc | hc
    · rw [hc] at h1
      exact Bool.noConfusion h1
    · rw [hc] at h2
      exact Bool.noConfusion h2

theorem ne_of_notPre {p t : Path} (h : isPre t p = false) (e : Path) :
    p ≠ t ++ e := by
  intro hp
  rw [hp, isPre_append] at h
  exact Bool.noConfusion h

/-! ### Lookup lemmas -/

theorem find?_filter_keep (p : Path) (f : Path × Node → Bool)
    (hf : ∀ kv : Path × Node, kv.1 = p → f kv = true) :
    ∀ fs : FS, (fs.filter f).find? (fun kv => kv.1 == p) = fs.find? (fun kv => kv.1 == p) := by
  intro fs
  induction fs with
  | nil => rfl
  | cons kv rest ih =>
    by_cases hk : kv.1 = p
    · have hb : (kv.1 == p) = true := beq_iff_eq.2 hk
      rw [List.filter_cons, hf kv hk]
      simp only [if_true]
      simp only [List.find?, hb]
    · have hne : (kv.1 == p) = false := beq_eq_false_iff_ne.2 hk
      cases hfkv : f kv with
      | true =>
        rw [List.filter_cons, hfkv]
        simp only [if_true]
        simp only [List.find?, hne]
        exact ih
      | false =>
        rw [List.filter_cons, hfkv]
        simp only [Bool.false_eq_true, if_false]
        simp only [List.find?, hne]
        exact ih

theorem find?_filter_drop (p : Path) (f : Path × Node → Bool)
    (hf : ∀ kv : Path × Node, kv.1 = p → f kv = false) :
    ∀ fs : FS, (fs.filter f).find? (fun kv => kv.1 == p) = none := by
  intro fs
  induction fs with
  | nil => rfl
  | cons kv rest ih =>
    by_cases hk : kv.1 = p
    · rw [List.filter_cons, hf kv hk]
      simp only [Bool.false_eq_true, if_false]
      exact ih
    · have hne : (kv.1 == p) = false := beq_eq_false_iff_ne.2 hk
      cases hfkv : f kv with
      | true =>
        rw [List.filter_cons, hfkv]
        simp only [if_true]
        simp only [List.find?, hne]
        exact ih
      | false =>
        rw [List.filter_cons, hfkv]
        simp only [Bool.false_eq_true, if_false]
        exact ih

theorem fsLookup_insert_self (fs : FS) (p : Path) (n : Node) :
    fsLookup (fsInsert fs p n) p = some n := by
  unfold fsLookup fsInsert
  have hb : ((p, n).1 == p) = true := beq_iff_eq.2 rfl
  simp only [List.find?, hb]
  rfl

theorem fsLookup_insert_ne (fs : FS) {p q : Path} (n : Node) (h : q ≠ p) :
    fsLookup (fsInsert fs p n) q = fsLookup fs q := by
  unfold fsLookup fsInsert
  have hne : ((p, n).1 == q) = false := beq_eq_false_iff_ne.2 (fun hh => h hh.symm)
  simp only [List.find?, hne]
  rw [find?_filter_keep q _ (fun kv hk => by
    have hb : (kv.1 == p) = false := beq_eq_false_iff_ne.2 (by rw [hk]; exact h)
    rw [hb]
    rfl)]

theorem fsLookup_remove_ne (fs : FS) {p q : Path} (h : q ≠ p) :
    fsLookup (fsRemove fs p) q = fsLookup fs q := by
  unfold fsLookup fsRemove
  rw [find?_filter_keep q _ (fun kv hk => by
    have : (kv.1 == p) = false := beq_eq_false_iff_ne.2 (by rw [hk]; exact h)
    rw [this]
    rfl)]

theorem fsLookup_remove_self (fs : FS) (p : Path) :
    fsLookup (fsRemove fs p) p = none := by
  unfold fsLookup fsRemove
  rw [find?_filter_drop p _ (fun kv hk => by
    have : (kv.1 == p) = true := beq_iff_eq.2 hk
    rw [this]
    rfl)]
  rfl

theorem fsLookup_removeAll_pre (fs : FS) {p q : Path} (h : isPre q p = true) :
    fsLookup (fsRemoveAll fs q) p = none := by
  unfold fsLookup fsRemoveAll
  rw [find?_filter_drop p _ (fun kv hk => by rw [hk, h]; rfl)]
  rfl

theorem fsLookup_removeAll_notPre (fs : FS) {p q : Path} (h : isPre q p = false) :
    fsLookup (fsRemoveAll fs q) p = fsLookup fs p := by
  unfold fsLookup fsRemoveAll
  rw [find?_filter_keep p _ (fun kv hk => by rw [hk, h]; rfl)]

theorem fsMove_lookup (oldp newp : Path) {p : Path}
    (h1 : isPre oldp p = false) (h2 : isPre newp p = false) :
    ∀ fs : FS, fsLookup (fsMove fs oldp newp) p = fsLookup fs p := by
  intro fs
  induction fs with
  | nil => rfl
  | cons kv rest ih =>
    unfold fsMove at ih ⊢
    rw [List.map_cons]
    by_cases hk : kv.1 = p
    · have hmv : isPre oldp kv.1 = false := by rw [hk]; exact h1
      rw [hmv]
      simp only [Bool.false_eq_true, if_false]
      unfold fsLookup
      have hb : (kv.1 == p) = true := beq_iff_eq.2 hk
      simp only [List.find?, hb]
    · cases hmv : isPre oldp kv.1 with
      | true =>
        simp only [if_true]
        unfold fsLookup
        have hb1 : ((newp ++ List.drop oldp.length kv.1, kv.2).1 == p) = false :=
          beq_eq_false_iff_ne.2 (fun hh => ne_of_notPre h2 _ hh.symm)
        have hb2 : (kv.1 == p) = false := beq_eq_false_iff_ne.2 hk
        simp only [List.find?, hb1, hb2]
        exact ih
      | false =>
        simp only [Bool.false_eq_true, if_false]
        unfold fsLookup
        have hb2 : (kv.1 == p) = false := beq_eq_false_iff_ne.2 hk
        simp only [List.find?, hb2]
        exact ih

theorem fsRename_lookup (fs : FS) (oldp newp : Path) {p : Path}
    (h1 : isPre oldp p = false) (h2 : isPre newp p = false) :
    fsLookup (fsRename fs oldp newp).1 p = fsLookup fs p := by
  unfold fsRename
  have hpn : p ≠ newp := fun hh => by
    rw [hh, isPre_refl] at h2
    exact Bool.noConfusion h2
  cases hold : fsLookup fs oldp with
  | none => rfl
  | some nold =>
    cases hnew : fsLookup fs newp with
    | none =>
      exact fsMove_lookup oldp newp h1 h2 fs
    | some nnew =>
      cases nnew with
      | dir m =>
        cases hany : fs.any (fun kv => isPre newp kv.1 && !(kv.1 == newp)) with
        | true => simp only [if_true]
        | false =>
          simp only [Bool.false_eq_true, if_false]
          rw [fsMove_lookup oldp newp h1 h2, fsLookup_remove_ne fs hpn]
      | file c m => rfl
      | symlink t => rfl
      | hardlink t => rfl

theorem fsRename_err_unchanged (fs : FS) (oldp newp : Path) (e : FsErr)
    (h : (fsRename fs oldp newp).2 = some e) : (fsRename fs oldp newp).1 = fs := by
  unfold fsRename at h ⊢
  cases hold : fsLookup fs oldp with
  | none => rfl
  | some nold =>
    rw [hold] at h
    cases hnew : fsLookup fs newp with
    | none =>
      rw [hnew] at h
      exact absurd h (by simp)
    | some nnew =>
      rw [hnew] at h
      cases nnew with
      | dir m =>
        cases hany : fs.any (fun kv => isPre newp kv.1 && !(kv.1 == newp)) with
        | true => simp
        | false =>
          rw [hany] at h
          simp at h
      | file c m => rfl
      | symlink t => rfl
      | hardlink t => rfl

/-! ### Symlink-freedom machinery -/

theorem noSym_lookup {fs : FS} (hns : noSymNodes fs) {q : Path} {n : Node}
    (h : fsLookup fs q = some n) : isSym n = false := by
  unfold fsLookup at h
  cases hf : fs.find? (fun kv => kv.1 == q) with
  | none => rw [hf] at h; exact absurd h (by simp)
  | some kv =>
    rw [hf] at h
    simp only [Option.map, Option.some.injEq] at h
    rw [← h]
    exact hns kv (List.mem_of_find?_eq_some hf)

theorem noSym_lookup_ne {fs : FS} (hns : noSymNodes fs) (q : Path) (t : String) :
    fsLookup fs q ≠ some (Node.symlink t) := by
  intro h
  have hx := noSym_lookup hns h
  simp [isSym] at hx

theorem noSymNodes_insert {fs : FS} {p : Path} {n : Node}
    (hns : noSymNodes fs) (hn : isSym n = false) : noSymNodes (fsInsert fs p n) := by
  intro kv hkv
  unfold fsInsert at hkv
  rcases List.mem_cons.1 hkv with hh | hkv2
  · rw [hh]
    exact hn
  · exact hns kv (List.mem_of_mem_filter hkv2)

/-! ### mkdirAll lemmas -/

theorem mkdirAllList_lookup (m : Nat) {p : Path} :
    ∀ (l : List Path) (fs : FS), (∀ r ∈ l, r ≠ p) →
      fsLookup (mkdirAllList m fs l).1 p = fsLookup fs p := by
  intro l
  induction l with
  | nil => intro fs _; rfl
  | cons r rest ih =>
    intro fs hl
    unfold mkdirAllList
    repeat' split
    all_goals first
      | rfl
      | exact ih fs (fun x hx => hl x (List.mem_cons_of_mem _ hx))
      | rw [ih _ (fun x hx => hl x (List.mem_cons_of_mem _ hx)),
          fsLookup_insert_ne fs _ (fun hh => hl r (List.mem_cons_self r rest) hh.symm)]

theorem prefixesOf_isPre {r q : Path} (h : r ∈ prefixesOf q) : isPre r q = true := by
  unfold prefixesOf at h
  rw [List.mem_map] at h
  obtain ⟨i, _, rfl⟩ := h
  exact (isPre_iff _ _).2 ⟨q.drop (i + 1), (List.take_append_drop _ _).symm⟩

theorem mkdirAll_lookup (fs : FS) (q : Path) (m : Nat) {p : Path}
    (h : isPre p q = false) : fsLookup (mkdirAll fs q m).1 p = fsLookup fs p := by
  unfold mkdirAll
  refine mkdirAllList_lookup m _ fs (fun r hr hrp => ?_)
  rw [hrp] at hr
  rw [prefixesOf_isPre hr] at h
  exact Bool.noConfusion h

theorem noSymNodes_mkdirAllList (mode : Nat) :
    ∀ (l : List Path) (fs : FS), noSymNodes fs →
      noSymNodes (mkdirAllList mode fs l).1 := by
  intro l
  induction l with
  | nil => intro fs hns; exact hns
  | cons r rest ih =>
    intro fs hns
    unfold mkdirAllList
    repeat' split
    all_goals first
      | exact hns
      | exact ih fs hns
      | exact ih _ (noSymNodes_insert hns rfl)

theorem noSymNodes_mkdirAll (fs : FS) (p : Path) (mode : Nat)
    (hns : noSymNodes fs) : noSymNodes (mkdirAll fs p mode).1 :=
  noSymNodes_mkdirAllList mode (prefixesOf p) fs hns

/-! ### Single-target operations: preservation in symlink-free states,
noSymNodes preservation, and evaluation equations -/

theorem openWriteFuel_lookup (fs : FS) (q : Path) (mode : Nat) (payload : List Nat)
    (fuel : Nat) {p : Path} (hns : noSymNodes fs) (h : p ≠ q) :
    fsLookup (openWriteFuel fs (Nat.succ fuel) q mode payload).1 p = fsLookup fs p := by
  unfold openWriteFuel
  repeat' split
  all_goals first
    | rfl
    | exact fsLookup_insert_ne fs _ h
    | (rename_i t hq; exact absurd hq (noSym_lookup_ne hns _ t))

theorem openWrite_lookup (fs : FS) (q : Path) (mode : Nat) (payload : List Nat)
    {p : Path} (hns : noSymNodes fs) (h : p ≠ q) :
    fsLookup (openWrite fs q mode payload).1 p = fsLookup fs p :=
  openWriteFuel_lookup fs q mode payload 39 hns h

theorem noSymNodes_openWriteFuel (mode : Nat) (payload : List Nat) :
    ∀ (fuel : Nat) (fs : FS) (p : Path), noSymNodes fs →
      noSymNodes (openWriteFuel fs fuel p mode payload).1 := by
  intro fuel
  induction fuel with
  | zero => intro fs p hns; exact hns
  | succ fuel ih =>
    intro fs p hns
    unfold openWriteFuel
    repeat' split
    all_goals first
      | exact hns
      | exact noSymNodes_insert hns rfl
      | exact ih fs _ hns

theorem noSymNodes_openWrite (fs : FS) (p : Path) (mode : Nat) (payload : List Nat)
    (hns : noSymNodes fs) : noSymNodes (openWrite fs p mode payload).1 :=
  noSymNodes_openWriteFuel mode payload 40 fs p hns

theorem symlinkCreateFuel_lookup (fs : FS) (target : String) (q : Path)
    (fuel : Nat) {p : Path} (hns : noSymNodes fs) (h : p ≠ q) :
    fsLookup (symlinkCreateFuel fs (Nat.succ fuel) target q).1 p = fsLookup fs p := by
  unfold symlinkCreateFuel
  repeat' split
  all_goals first
    | rfl
    | exact fsLookup_insert_ne fs _ h
    | (rename_i t hq; exact absurd hq (noSym_lookup_ne hns _ t))

theorem symlinkCreate_lookup (fs : FS) (target : String) (q : Path)
    {p : Path} (hns : noSymNodes fs) (h : p ≠ q) :
    fsLookup (symlinkCreate fs target q).1 p = fsLookup fs p :=
  symlinkCreateFuel_lookup fs target q 39 hns h

theorem dirAt_of_lookup {fs : FS} {p : Path} {m : Nat}
    (h : fsLookup fs p = some (Node.dir m)) : dirAt fs p = true := by
  unfold dirAt
  by_cases hnil : p = []
  · rw [if_pos hnil]
  · rw [if_neg hnil, h]

theorem openWriteFuel_create (fs : FS) (q : Path) (mode : Nat) (payload : List Nat)
    (m : Nat) (fuel : Nat) (hq : fsLookup fs q = none)
    (hpar : fsLookup fs q.dropLast = some (Node.dir m)) :
    openWriteFuel fs (Nat.succ fuel) q mode payload =
      (fsInsert fs q (Node.file payload mode), none) := by
  unfold openWriteFuel
  rw [hq, hpar, if_pos (dirAt_of_lookup hpar)]

theorem openWrite_create (fs : FS) (q : Path) (mode : Nat) (payload : List Nat)
    (m : Nat) (hq : fsLookup fs q = none)
    (hpar : fsLookup fs q.dropLast = some (Node.dir m)) :
    openWrite fs q mode payload = (fsInsert fs q (Node.file payload mode), none) :=
  openWriteFuel_create fs q mode payload m 39 hq hpar

theorem openWriteFuel_over (fs : FS) (q : Path) (mode : Nat) (payload : List Nat)
    (old : List Nat) (mold : Nat) (fuel : Nat)
    (hq : fsLookup fs q = some (Node.file old mold)) :
    openWriteFuel fs (Nat.succ fuel) q mode payload =
      (fsInsert fs q (Node.file (payload ++ old.drop payload.length) mold), none) := by
  unfold openWriteFuel
  rw [hq]

theorem openWrite_over (fs : FS) (q : Path) (mode : Nat) (payload : List Nat)
    (old : List Nat) (mold : Nat)
    (hq : fsLookup fs q = some (Node.file old mold)) :
    openWrite fs q mode payload =
      (fsInsert fs q (Node.file (payload ++ old.drop payload.length) mold), none) :=
  openWriteFuel_over fs q mode payload old mold 39 hq

theorem openExclFuel_exists (fs : FS) (q : Path) (mode : Nat) (n : Node)
    (fuel : Nat) (hq : fsLookup fs q = some n) :
    openExclFuel fs (Nat.succ fuel) q mode =
      (fs, some (FsErr.alreadyExists (compsToString q))) := by
  unfold openExclFuel
  rw [hq]

theorem openExcl_exists (fs : FS) (q : Path) (mode : Nat) (n : Node)
    (hq : fsLookup fs q = some n) :
    openExcl fs q mode = (fs, some (FsErr.alreadyExists (compsToString q))) :=
  openExclFuel_exists fs q mode n 39 hq

theorem openExclFuel_absent (fs : FS) (q : Path) (mode m : Nat) (fuel : Nat)
    (hq : fsLookup fs q = none)
    (hpar : fsLookup fs q.dropLast = some (Node.dir m)) :
    openExclFuel fs (Nat.succ fuel) q mode =
      (fsInsert fs q (Node.file [] mode), none) := by
  unfold openExclFuel
  rw [hq, hpar, if_pos (dirAt_of_lookup hpar)]

theorem openExcl_absent (fs : FS) (q : Path) (mode m : Nat)
    (hq : fsLookup fs q = none)
    (hpar : fsLookup fs q.dropLast = some (Node.dir m)) :
    openExcl fs q mode = (fsInsert fs q (Node.file [] mode), none) :=
  openExclFuel_absent fs q mode m 39 hq hpar

theorem linkCreateFuel_dir (fs : FS) (oldp newp : Path) (m : Nat) (fuel : Nat)
    (ho : fsLookup fs oldp = some (Node.dir m)) :
    linkCreateFuel fs (Nat.succ fuel) oldp newp =
      (fs, some (FsErr.notPermitted (compsToString oldp))) := by
  unfold linkCreateFuel
  rw [ho]

theorem linkCreate_dir (fs : FS) (oldp newp : Path) (m : Nat)
    (ho : fsLookup fs oldp = some (Node.dir m)) :
    linkCreate fs oldp newp = (fs, some (FsErr.notPermitted (compsToString oldp))) :=
  linkCreateFuel_dir fs oldp newp m 39 ho

theorem linkCreateFuel_ok (fs : FS) (oldp newp : Path) (n : Node) (m : Nat)
    (fuel : Nat) (ho : fsLookup fs oldp = some n) (hnd : isDirNode n = false)
    (hnew : fsLookup fs newp = none)
    (hpar : fsLookup fs newp.dropLast = some (Node.dir m)) :
    linkCreateFuel fs (Nat.succ fuel) oldp newp =
      (fsInsert fs newp (Node.hardlink oldp), none) := by
  unfold linkCreateFuel
  rw [ho]
  cases n with
  | dir md => simp [isDirNode] at hnd
  | file c md => rw [hnew, hpar, if_pos (dirAt_of_lookup hpar)]
  | symlink t => rw [hnew, hpar, if_pos (dirAt_of_lookup hpar)]
  | hardlink t => rw [hnew, hpar, if_pos (dirAt_of_lookup hpar)]

theorem linkCreate_ok (fs : FS) (oldp newp : Path) (n : Node) (m : Nat)
    (ho : fsLookup fs oldp = some n) (hnd : isDirNode n = false)
    (hnew : fsLookup fs newp = none)
    (hpar : fsLookup fs newp.dropLast = some (Node.dir m)) :
    linkCreate fs oldp newp = (fsInsert fs newp (Node.hardlink oldp), none) :=
  linkCreateFuel_ok fs oldp newp n m 39 ho hnd hnew hpar

theorem createFileFuel_fs :
    ∀ (fuel : Nat) (fs : FS) (q : Path) (data : List Nat),
      (createFileFuel fs fuel q data).2 = none ∨
      (createFileFuel fs fuel q data).1 = fs := by
  intro fuel
  induction fuel with
  | zero => intro fs q data; right; rfl
  | succ fuel ih =>
    intro fs q data
    unfold createFileFuel
    repeat' split
    all_goals first
      | (left; rfl)
      | (right; rfl)
      | exact ih fs _ data

theorem createFile_err (fs : FS) (q : Path) (data : List Nat) (e : FsErr)
    (h : (createFile fs q data).2 = some e) : (createFile fs q data).1 = fs := by
  unfold createFile at h ⊢
  rcases createFileFuel_fs 40 fs q data with h2 | h2
  · rw [h2] at h
    exact absurd h (by simp)
  · exact h2

/-! ### ensureFileInDir lemmas -/

theorem relComps_spec : ∀ (d q : List String),
    (∃ e, q = d ++ e ∧ relComps d q = e) ∨ ∃ r, relComps d q = ".." :: r := by
  intro d
  induction d with
  | nil =>
    intro q
    exact Or.inl ⟨q, rfl, rfl⟩
  | cons b bs ih =>
    intro q
    cases q with
    | nil =>
      exact Or.inr ⟨bs.map (fun _ => ".."), rfl⟩
    | cons t ts =>
      by_cases hbt : b = t
      · subst hbt
        rcases ih ts with ⟨e, he, hrel⟩ | ⟨r, hrel⟩
        · refine Or.inl ⟨e, by rw [he, List.cons_append], ?_⟩
          simp only [relComps, if_pos]
          exact hrel
        · refine Or.inr ⟨r, ?_⟩
          unfold relComps
          rw [if_pos rfl]
          exact hrel
      · refine Or.inr ⟨bs.map (fun _ => "..") ++ t :: ts, ?_⟩
        unfold relComps
        rw [if_neg hbt]
        rfl

theorem relComps_append : ∀ (d e : List String), relComps d (d ++ e) = e := by
  intro d
  induction d with
  | nil => intro e; rfl
  | cons b bs ih =>
    intro e
    rw [List.cons_append]
    simp only [relComps, if_pos]
    exact ih e

theorem startsWithDotDot_append (a b : String) (h : startsWithDotDot a = true) :
    startsWithDotDot (a ++ b) = true := by
  unfold startsWithDotDot at h ⊢
  rw [String.data_append]
  cases ha : a.data with
  | nil => rw [ha] at h; exact Bool.noConfusion h
  | cons c cs =>
    rw [ha] at h
    cases cs with
    | nil => exact Bool.noConfusion h
    | cons c2 cs2 => exact h

theorem foldl_slash_startsWith (l : List String) :
    ∀ acc : String, startsWithDotDot acc = true →
      startsWithDotDot (l.foldl (fun a c => a ++ "/" ++ c) acc) = true := by
  induction l with
  | nil => intro acc h; exact h
  | cons x xs ih =>
    intro acc h
    exact ih _ (startsWithDotDot_append _ _ (startsWithDotDot_append _ _ h))

theorem relString_dotdot (r : List String) :
    startsWithDotDot (relString (".." :: r)) = true := by
  unfold relString intercalateSlash
  rw [if_neg (by simp)]
  exact foldl_slash_startsWith r ".." rfl

theorem ensureFileInDir_some (d : Path) (file : String) (q : Path)
    (h : ensureFileInDir d file = .ok (some q)) : ∃ e, q = d ++ e ∧ e ≠ [] := by
  unfold ensureFileInDir at h
  by_cases hj : cleanAbs (d ++ splitPathKeep file) = d
  · rw [if_pos hj] at h
    exact absurd h (by simp)
  · rw [if_neg hj] at h
    rcases relComps_spec d (cleanAbs (d ++ splitPathKeep file)) with ⟨e, he, hrel⟩ | ⟨r, hrel⟩
    · cases hsw : startsWithDotDot (relString (relComps d (cleanAbs (d ++ splitPathKeep file)))) with
      | true =>
        rw [if_pos hsw] at h
        exact absurd h (by simp)
      | false =>
        rw [if_neg (by rw [hsw]; exact Bool.noConfusion)] at h
        have hq : q = cleanAbs (d ++ splitPathKeep file) := by
          have := h
          simp only [Except.ok.injEq, Option.some.injEq] at this
          exact this.symm
        refine ⟨e, by rw [hq]; exact he, fun he0 => ?_⟩
        rw [he0, List.append_nil] at he
        exact hj he
    · rw [hrel] at h
      rw [if_pos (relString_dotdot r)] at h
      exact absurd h (by simp)

/-! ### Entry and loop preservation lemmas -/

theorem inflateTarEntry_lookup (fs : FS) (path : String) (tmp : Path) (e : TarEntry)
    {p : Path} (hns : noSymNodes fs) (hl : e.typeflag ≠ TarType.link)
    (h1 : isPre p tmp = false) (h2 : isPre tmp p = false) :
    fsLookup (inflateTarEntry fs path tmp e).1 p = fsLookup fs p := by
  unfold inflateTarEntry
  split
  · rfl
  · rfl
  · rename_i q hE
    obtain ⟨ex, hqe, hexne⟩ := ensureFileInDir_some tmp e.name q hE
    have hq : isPre p q = false := by rw [hqe]; exact notPre_extend h1 h2 ex
    have hpq : p ≠ q := by
      intro hh
      rw [hh, isPre_refl] at hq
      exact Bool.noConfusion hq
    have hdropPre : isPre p q.dropLast = false := by
      cases hx : isPre p q.dropLast with
      | false => rfl
      | true =>
        have htr := isPre_trans hx (isPre_dropLast q)
        rw [htr] at hq
        exact Bool.noConfusion hq
    split
    · exact mkdirAll_lookup fs q e.mode hq
    · split
      · rename_i fs1 err hm
        have hmk := mkdirAll_lookup fs q.dropLast 448 hdropPre
        rw [hm] at hmk
        exact hmk
      · rename_i fs1 hm
        have hmk := mkdirAll_lookup fs q.dropLast 448 hdropPre
        rw [hm] at hmk
        have hns1 : noSymNodes fs1 := by
          have hx := noSymNodes_mkdirAll fs q.dropLast 448 hns
          rw [hm] at hx
          exact hx
        exact (openWrite_lookup fs1 q e.mode e.content hns1 hpq).trans hmk
    · split
      · rename_i fs1 err hm
        have hmk := mkdirAll_lookup fs q.dropLast 448 hdropPre
        rw [hm] at hmk
        exact hmk
      · rename_i fs1 hm
        have hmk := mkdirAll_lookup fs q.dropLast 448 hdropPre
        rw [hm] at hmk
        have hns1 : noSymNodes fs1 := by
          have hx := noSymNodes_mkdirAll fs q.dropLast 448 hns
          rw [hm] at hx
          exact hx
        exact (symlinkCreate_lookup fs1 e.linkname q hns1 hpq).trans hmk
    · rename_i htf
      exact absurd htf hl
    · rfl

theorem noSymNodes_tarEntry (fs : FS) (path : String) (tmp : Path) (e : TarEntry)
    (hns : noSymNodes fs) (hl : e.typeflag ≠ TarType.link)
    (hsym : e.typeflag ≠ TarType.symlink) :
    noSymNodes (inflateTarEntry fs path tmp e).1 := by
  unfold inflateTarEntry
  split
  · exact hns
  · exact hns
  · rename_i q hE
    split
    · exact noSymNodes_mkdirAll fs q e.mode hns
    · split
      · rename_i fs1 err hm
        have hx := noSymNodes_mkdirAll fs q.dropLast 448 hns
        rw [hm] at hx
        exact hx
      · rename_i fs1 hm
        have hx := noSymNodes_mkdirAll fs q.dropLast 448 hns
        rw [hm] at hx
        exact noSymNodes_openWrite fs1 q e.mode e.content hx
    · rename_i htf
      exact absurd htf hsym
    · rename_i htf
      exact absurd htf hl
    · exact hns

theorem inflateTarLoop_lookup (path : String) (tmp : Path) {p : Path}
    (h1 : isPre p tmp = false) (h2 : isPre tmp p = false) :
    ∀ (entries : List TarEntry) (fs : FS), noSymNodes fs →
      (∀ e ∈ entries, e.typeflag ≠ TarType.link ∧ e.typeflag ≠ TarType.symlink) →
      fsLookup (inflateTarLoop path tmp fs entries).1 p = fsLookup fs p := by
  intro entries
  induction entries with
  | nil => intro fs _ _; rfl
  | cons e rest ih =>
    intro fs hns hl
    unfold inflateTarLoop
    by_cases hpax : e.name = "pax_global_header"
    · rw [if_pos hpax]
      exact ih fs hns (fun x hx => hl x (List.mem_cons_of_mem _ hx))
    · rw [if_neg hpax]
      rcases hstep : inflateTarEntry fs path tmp e with ⟨fs', o⟩
      have hpres := inflateTarEntry_lookup fs path tmp e hns
        (hl e (List.mem_cons_self e rest)).1 h1 h2
      have hns2 := noSymNodes_tarEntry fs path tmp e hns
        (hl e (List.mem_cons_self e rest)).1 (hl e (List.mem_cons_self e rest)).2
      rw [hstep] at hpres hns2
      cases o with
      | none =>
        exact (ih fs' hns2 (fun x hx => hl x (List.mem_cons_of_mem _ hx))).trans hpres
      | some err => exact hpres

theorem inflateZipEntry_lookup (fs : FS) (tmp : Path) (zf : ZipEntry) {p : Path}
    (hns : noSymNodes fs) (h1 : isPre p tmp = false) (h2 : isPre tmp p = false) :
    fsLookup (inflateZipEntry fs tmp zf).1 p = fsLookup fs p := by
  unfold inflateZipEntry
  split
  · rfl
  · split
    · rfl
    · rfl
    · rename_i q hE
      obtain ⟨ex, hqe, hexne⟩ := ensureFileInDir_some tmp zf.name q hE
      have hq : isPre p q = false := by rw [hqe]; exact notPre_extend h1 h2 ex
      have hpq : p ≠ q := by
        intro hh
        rw [hh, isPre_refl] at hq
        exact Bool.noConfusion hq
      have hdropPre : isPre p q.dropLast = false := by
        cases hx : isPre p q.dropLast with
        | false => rfl
        | true =>
          have htr := isPre_trans hx (isPre_dropLast q)
          rw [htr] at hq
          exact Bool.noConfusion hq
      split
      · exact mkdirAll_lookup fs q zf.mode hq
      · split
        · rename_i fs1 err hm
          have hmk := mkdirAll_lookup fs q.dropLast 448 hdropPre
          rw [hm] at hmk
          exact hmk
        · rename_i fs1 hm
          have hmk := mkdirAll_lookup fs q.dropLast 448 hdropPre
          rw [hm] at hmk
          have hns1 : noSymNodes fs1 := by
            have hx := noSymNodes_mkdirAll fs q.dropLast 448 hns
            rw [hm] at hx
            exact hx
          exact (openWrite_lookup fs1 q zf.mode zf.content hns1 hpq).trans hmk

theorem noSymNodes_zipEntry (fs : FS) (tmp : Path) (zf : ZipEntry)
    (hns : noSymNodes fs) : noSymNodes (inflateZipEntry fs tmp zf).1 := by
  unfold inflateZipEntry
  split
  · exact hns
  · split
    · exact hns
    · exact hns
    · rename_i q hE
      split
      · exact noSymNodes_mkdirAll fs q zf.mode hns
      · split
        · rename_i fs1 err hm
          have hx := noSymNodes_mkdirAll fs q.dropLast 448 hns
          rw [hm] at hx
          exact hx
        · rename_i fs1 hm
          have hx := noSymNodes_mkdirAll fs q.dropLast 448 hns
          rw [hm] at hx
          exact noSymNodes_openWrite fs1 q zf.mode zf.content hx

theorem inflateZipLoop_lookup (tmp : Path) {p : Path}
    (h1 : isPre p tmp = false) (h2 : isPre tmp p = false) :
    ∀ (entries : List ZipEntry) (fs : FS), noSymNodes fs →
      fsLookup (inflateZipLoop tmp fs entries).1 p = fsLookup fs p := by
  intro entries
  induction entries with
  | nil => intro fs _; rfl
  | cons zf rest ih =>
    intro fs hns
    unfold inflateZipLoop
    rcases hstep : inflateZipEntry fs tmp zf with ⟨fs', o⟩
    have hpres := inflateZipEntry_lookup fs tmp zf hns h1 h2
    have hns2 := noSymNodes_zipEntry fs tmp zf hns
    rw [hstep] at hpres hns2
    cases o with
    | none => exact (ih fs' hns2).trans hpres
    | some err => exact hpres

theorem inflateTarLoop_append (path : String) (tmp : Path) :
    ∀ (l1 l2 : List TarEntry) (fs : FS),
      inflateTarLoop path tmp fs (l1 ++ l2) =
        match inflateTarLoop path tmp fs l1 with
        | (fs', none) => inflateTarLoop path tmp fs' l2
        | (fs', some e) => (fs', some e) := by
  intro l1
  induction l1 with
  | nil => intro l2 fs; rfl
  | cons e rest ih =>
    intro l2 fs
    rw [List.cons_append]
    by_cases hpax : e.name = "pax_global_header"
    · simp only [inflateTarLoop, if_pos hpax]
      exact ih l2 fs
    · simp only [inflateTarLoop, if_neg hpax]
      rcases hstep : inflateTarEntry fs path tmp e with ⟨fs', o⟩
      cases o with
      | none => exact ih l2 fs'
      | some err => rfl

theorem inflateZipLoop_append (tmp : Path) :
    ∀ (l1 l2 : List ZipEntry) (fs : FS),
      inflateZipLoop tmp fs (l1 ++ l2) =
        match inflateZipLoop tmp fs l1 with
        | (fs', none) => inflateZipLoop tmp fs' l2
        | (fs', some e) => (fs', some e) := by
  intro l1
  induction l1 with
  | nil => intro l2 fs; rfl
  | cons zf rest ih =>
    intro l2 fs
    rw [List.cons_append]
    simp only [inflateZipLoop]
    rcases hstep : inflateZipEntry fs tmp zf with ⟨fs', o⟩
    cases o with
    | none => exact ih l2 fs'
    | some err => rfl

/-! ### Claim C1 -/

/-- C1, as stated, is false on the code: processing a tar hard-link entry
rewrites the link target to `path + "/" + linkname` — under the *final*
destination — and `ensureFileDir`/`OpenFile` then create the destination
directory and an empty placeholder file there, while the deferred cleanup
only removes the staging path.  Concretely: a tar archive whose first entry
is a hard link `l -> t` and whose second entry has an unsupported type fails
fatally, yet afterwards the destination `/d` exists and contains the
placeholder file `/d/t`.  A symlink entry escapes the same way: a tar
archive `s -> /d`, then a regular file written through `s` (OpenFile
follows the dangling symlink and creates its target), then an unsupported
entry, fails fatally yet leaves the destination `/d` itself existing as a
file holding the smuggled payload. -/
theorem c1_counterexample :
    (InflateTar [] [⟨TarType.link, "l", "t", 420, []⟩,
        ⟨TarType.other 50, "x", "", 0, []⟩] ⟨[], 0⟩ "/d").2 =
      some (FsErr.unsupportedType 50 "/d.tmp/x") ∧
    fsLookup (InflateTar [] [⟨TarType.link, "l", "t", 420, []⟩,
        ⟨TarType.other 50, "x", "", 0, []⟩] ⟨[], 0⟩ "/d").1.1 ["d"] =
      some (Node.dir 448) ∧
    fsLookup (InflateTar [] [⟨TarType.link, "l", "t", 420, []⟩,
        ⟨TarType.other 50, "x", "", 0, []⟩] ⟨[], 0⟩ "/d").1.1 ["d", "t"] =
      some (Node.file [] 420) ∧
    (InflateTar [] [⟨TarType.symlink, "s", "/d", 420, []⟩,
        ⟨TarType.reg, "s", "", 420, [7]⟩,
        ⟨TarType.other 50, "x", "", 0, []⟩] ⟨[], 0⟩ "/d").2 =
      some (FsErr.unsupportedType 50 "/d.tmp/x") ∧
    fsLookup (InflateTar [] [⟨TarType.symlink, "s", "/d", 420, []⟩,
        ⟨TarType.reg, "s", "", 420, [7]⟩,
        ⟨TarType.other 50, "x", "", 0, []⟩] ⟨[], 0⟩ "/d").1.1 ["d"] =
      some (Node.file [7] 420) := by
  decide

/-- C1 (amended): for archives containing no hard-link and no symlink
entry, starting from a symlink-free filesystem, if any entry triggers a
fatal error then afterwards no trace of the destination path exists: every
path at or below the destination that was absent before the call is still
absent.  (`hsep1`/`hsep2` say that the staging path `path + ".tmp"` is
neither an ancestor nor a descendant of the destination, which holds for
any ordinary destination path such as `/d`.  Hard-link entries are excluded
because `os.Link`'s placeholder is created under the final destination;
symlink entries are excluded because a later write through the planted
symlink creates the destination itself — both escapes survive the cleanup,
as `c1_counterexample` shows.) -/
theorem c1_theorem (fs0 : FS) (entries : List TarEntry) (reader : Stream)
    (path : String) (fs' : FS) (reader' : Stream) (err : FsErr)
    (hnl : ∀ e ∈ entries, e.typeflag ≠ TarType.link ∧ e.typeflag ≠ TarType.symlink)
    (hns0 : noSymNodes fs0)
    (hsep1 : isPre (pathComps path) (pathComps (path ++ ".tmp")) = false)
    (hsep2 : isPre (pathComps (path ++ ".tmp")) (pathComps path) = false)
    (hdest : ∀ p, isPre (pathComps path) p = true → fsLookup fs0 p = none)
    (hrun : InflateTar fs0 entries reader path = ((fs', reader'), some err)) :
    ∀ p, isPre (pathComps path) p = true → fsLookup fs' p = none := by
  intro p hp
  have hpt : isPre p (pathComps (path ++ ".tmp")) = false := by
    cases hx : isPre p (pathComps (path ++ ".tmp")) with
    | false => rfl
    | true =>
      have htr := isPre_trans hp hx
      rw [htr] at hsep1
      exact Bool.noConfusion hsep1
  have htp : isPre (pathComps (path ++ ".tmp")) p = false := by
    cases hx : isPre (pathComps (path ++ ".tmp")) p with
    | false => rfl
    | true =>
      rcases isPre_total hp hx with hc | hc
      · rw [hc] at hsep1
        exact Bool.noConfusion hsep1
      · rw [hc] at hsep2
        exact Bool.noConfusion hsep2
  simp only [InflateTar] at hrun
  split at hrun
  · rename_i fs1 e1 hm
    simp only [Prod.mk.injEq] at hrun
    obtain ⟨⟨h1, _⟩, _⟩ := hrun
    rw [← h1]
    have hmk := mkdirAll_lookup fs0 (pathComps (path ++ ".tmp")) 448 hpt
    rw [hm] at hmk
    exact hmk.trans (hdest p hp)
  · rename_i fs1 hm
    have hns1 : noSymNodes fs1 := by
      have hx := noSymNodes_mkdirAll fs0 (pathComps (path ++ ".tmp")) 448 hns0
      rw [hm] at hx
      exact hx
    split at hrun
    · rename_i fs2 e2 hloop
      have hinj : fsRemoveAll fs2 (pathComps (path ++ ".tmp")) = fs' := by
        simp only [Prod.mk.injEq] at hrun
        exact hrun.1.1
      rw [← hinj]
      cases hx : isPre (pathComps (path ++ ".tmp")) p with
      | true => exact fsLookup_removeAll_pre fs2 hx
      | false =>
        rw [fsLookup_removeAll_notPre fs2 hx]
        have hlp := inflateTarLoop_lookup path (pathComps (path ++ ".tmp"))
          hpt htp entries fs1 hns1 hnl
        rw [hloop] at hlp
        have hmk := mkdirAll_lookup fs0 (pathComps (path ++ ".tmp")) 448 hpt
        rw [hm] at hmk
        exact hlp.trans (hmk.trans (hdest p hp))
    · rename_i fs2 hloop
      split at hrun
      · rename_i fs3 e3 hren
        have hfs3 : fs3 = fs2 := by
          have hx := fsRename_err_unchanged fs2 (pathComps (path ++ ".tmp"))
            (pathComps path) e3 (by rw [hren])
          rw [hren] at hx
          exact hx
        have hinj : fsRemoveAll fs3 (pathComps (path ++ ".tmp")) = fs' := by
          simp only [Prod.mk.injEq] at hrun
          exact hrun.1.1
        rw [← hinj, hfs3]
        cases hx : isPre (pathComps (path ++ ".tmp")) p with
        | true => exact fsLookup_removeAll_pre fs2 hx
        | false =>
          rw [fsLookup_removeAll_notPre fs2 hx]
          have hlp := inflateTarLoop_lookup path (pathComps (path ++ ".tmp"))
            hpt htp entries fs1 hns1 hnl
          rw [hloop] at hlp
          have hmk := mkdirAll_lookup fs0 (pathComps (path ++ ".tmp")) 448 hpt
          rw [hm] at hmk
          exact hlp.trans (hmk.trans (hdest p hp))
      · rename_i fs3 hren
        simp only [Prod.mk.injEq] at hrun
        exact absurd hrun.2 (by simp)

theorem c1_theorem_witness :
    fsLookup ([] : FS) ["d"] = none :=
  c1_theorem [] [⟨TarType.other 9, "x", "", 0, []⟩] ⟨[], 0⟩ "/d" [] ⟨[], 0⟩
    (FsErr.unsupportedType 9 "/d.tmp/x")
    (by
      intro e he
      rw [List.mem_singleton] at he
      subst he
      exact ⟨by decide, by decide⟩)
    (by intro kv hkv; exact absurd hkv (List.not_mem_nil kv))
    (by decide) (by decide)
    (fun p _ => rfl)
    (by decide)
    ["d"] (by decide)
/-! ### Claim C2 -/

theorem staging_sep (path : String) {p : Path}
    (hsep1 : isPre (pathComps path) (pathComps (path ++ ".tmp")) = false)
    (hsep2 : isPre (pathComps (path ++ ".tmp")) (pathComps path) = false)
    (hp : isPre (pathComps path) p = true) :
    isPre p (pathComps (path ++ ".tmp")) = false ∧
      isPre (pathComps (path ++ ".tmp")) p = false := by
  constructor
  · cases hx : isPre p (pathComps (path ++ ".tmp")) with
    | false => rfl
    | true =>
      have htr := isPre_trans hp hx
      rw [htr] at hsep1
      exact Bool.noConfusion hsep1
  · cases hx : isPre (pathComps (path ++ ".tmp")) p with
    | false => rfl
    | true =>
      rcases isPre_total hp hx with hc | hc
      · rw [hc] at hsep1
        exact Bool.noConfusion hsep1
      · rw [hc] at hsep2
        exact Bool.noConfusion hsep2

theorem tarContainment_core (fs0 fs1 fsmid : FS) (pre rest : List TarEntry)
    (bad : TarEntry) (reader : Stream) (path : String) (f r : String)
    (hm : mkdirAll fs0 (pathComps (path ++ ".tmp")) 448 = (fs1, none))
    (hpre : inflateTarLoop path (pathComps (path ++ ".tmp")) fs1 pre = (fsmid, none))
    (hpax : bad.name ≠ "pax_global_header")
    (hbad : ensureFileInDir (pathComps (path ++ ".tmp")) bad.name =
      .error (FsErr.outside f r)) :
    InflateTar fs0 (pre ++ bad :: rest) reader path =
      ((fsRemoveAll fsmid (pathComps (path ++ ".tmp")), reader),
        some (FsErr.outside f r)) := by
  have hentry : inflateTarEntry fsmid path (pathComps (path ++ ".tmp")) bad =
      (fsmid, some (FsErr.outside f r)) := by
    simp only [inflateTarEntry, hbad]
  have hloop : inflateTarLoop path (pathComps (path ++ ".tmp")) fs1
      (pre ++ bad :: rest) = (fsmid, some (FsErr.outside f r)) := by
    rw [inflateTarLoop_append, hpre]
    show inflateTarLoop path (pathComps (path ++ ".tmp")) fsmid (bad :: rest) = _
    simp only [inflateTarLoop, if_neg hpax, hentry]
  simp only [InflateTar, hm, hloop]

theorem zipContainment_core (fs0 fs1 fsmid : FS) (pre rest : List ZipEntry)
    (bad : ZipEntry) (data : List Nat)
    (parse : List Nat → Except FsErr (List ZipEntry)) (path : String) (f r : String)
    (hm : mkdirAll fs0 (pathComps (path ++ ".tmp")) 448 = (fs1, none))
    (hparse : parse data = .ok (pre ++ bad :: rest))
    (hpre : inflateZipLoop (pathComps (path ++ ".tmp")) fs1 pre = (fsmid, none))
    (hopen : bad.openOk = true)
    (hbad : ensureFileInDir (pathComps (path ++ ".tmp")) bad.name =
      .error (FsErr.outside f r)) :
    InflateZip fs0 true data parse path =
      (fsRemoveAll fsmid (pathComps (path ++ ".tmp")), some (FsErr.outside f r)) := by
  have hentry : inflateZipEntry fsmid (pathComps (path ++ ".tmp")) bad =
      (fsmid, some (FsErr.outside f r)) := by
    simp only [inflateZipEntry, hopen, Bool.not_true, Bool.false_eq_true,
      if_false, hbad]
  have hloop : inflateZipLoop (pathComps (path ++ ".tmp")) fs1
      (pre ++ bad :: rest) = (fsmid, some (FsErr.outside f r)) := by
    rw [inflateZipLoop_append, hpre]
    show inflateZipLoop (pathComps (path ++ ".tmp")) fsmid (bad :: rest) = _
    simp only [inflateZipLoop, hentry]
  have hbody : zipBody fs1 data parse (pathComps (path ++ ".tmp")) path =
      (fsmid, some (FsErr.outside f r)) := by
    simp only [zipBody, hparse, hloop]
  simp only [InflateZip, hm, hbody, if_true]

theorem tar_staging_cleanup_none (fs0 fs1 fsmid : FS) (pre : List TarEntry)
    (path : String) {p : Path}
    (hm : mkdirAll fs0 (pathComps (path ++ ".tmp")) 448 = (fs1, none))
    (hpre : inflateTarLoop path (pathComps (path ++ ".tmp")) fs1 pre = (fsmid, none))
    (hnl : ∀ e ∈ pre, e.typeflag ≠ TarType.link ∧ e.typeflag ≠ TarType.symlink)
    (hns0 : noSymNodes fs0)
    (hsep1 : isPre (pathComps path) (pathComps (path ++ ".tmp")) = false)
    (hsep2 : isPre (pathComps (path ++ ".tmp")) (pathComps path) = false)
    (hdest : ∀ q, isPre (pathComps path) q = true → fsLookup fs0 q = none)
    (hp : isPre (pathComps path) p = true) :
    fsLookup (fsRemoveAll fsmid (pathComps (path ++ ".tmp"))) p = none := by
  obtain ⟨hpt, htp⟩ := staging_sep path hsep1 hsep2 hp
  cases hx : isPre (pathComps (path ++ ".tmp")) p with
  | true => exact fsLookup_removeAll_pre fsmid hx
  | false =>
    rw [fsLookup_removeAll_notPre fsmid hx]
    have hns1 : noSymNodes fs1 := by
      have hx2 := noSymNodes_mkdirAll fs0 (pathComps (path ++ ".tmp")) 448 hns0
      rw [hm] at hx2
      exact hx2
    have hlp := inflateTarLoop_lookup path (pathComps (path ++ ".tmp"))
      hpt htp pre fs1 hns1 hnl
    rw [hpre] at hlp
    have hmk := mkdirAll_lookup fs0 (pathComps (path ++ ".tmp")) 448 hpt
    rw [hm] at hmk
    exact hlp.trans (hmk.trans (hdest p hp))

theorem zip_staging_cleanup_none (fs0 fs1 fsmid : FS) (pre : List ZipEntry)
    (path : String) {p : Path}
    (hm : mkdirAll fs0 (pathComps (path ++ ".tmp")) 448 = (fs1, none))
    (hpre : inflateZipLoop (pathComps (path ++ ".tmp")) fs1 pre = (fsmid, none))
    (hns0 : noSymNodes fs0)
    (hsep1 : isPre (pathComps path) (pathComps (path ++ ".tmp")) = false)
    (hsep2 : isPre (pathComps (path ++ ".tmp")) (pathComps path) = false)
    (hdest : ∀ q, isPre (pathComps path) q = true → fsLookup fs0 q = none)
    (hp : isPre (pathComps path) p = true) :
    fsLookup (fsRemoveAll fsmid (pathComps (path ++ ".tmp"))) p = none := by
  obtain ⟨hpt, htp⟩ := staging_sep path hsep1 hsep2 hp
  cases hx : isPre (pathComps (path ++ ".tmp")) p with
  | true => exact fsLookup_removeAll_pre fsmid hx
  | false =>
    rw [fsLookup_removeAll_notPre fsmid hx]
    have hns1 : noSymNodes fs1 := by
      have hx2 := noSymNodes_mkdirAll fs0 (pathComps (path ++ ".tmp")) 448 hns0
      rw [hm] at hx2
      exact hx2
    have hlp := inflateZipLoop_lookup (pathComps (path ++ ".tmp")) hpt htp pre fs1
      hns1
    rw [hpre] at hlp
    have hmk := mkdirAll_lookup fs0 (pathComps (path ++ ".tmp")) 448 hpt
    rw [hm] at hmk
    exact hlp.trans (hmk.trans (hdest p hp))

/-- C2, as stated, is false on the code: the containment-violation error is
raised as claimed, but the "destination path is not created or modified"
part fails when a hard-link entry precedes the offending entry, because the
hard-link branch creates the destination directory and a placeholder file
under it before the traversal entry is ever examined.  Concretely: a tar
archive `[hard link l -> t, regular file ../evil]` fails with the
containment error, yet the destination `/d` exists afterwards.  A preceding
symlink entry escapes too: `[symlink s -> /d, regular file s, regular file
../evil]` fails with the containment error, yet the write through the
planted symlink has already created the destination `/d` itself. -/
theorem c2_counterexample :
    (InflateTar [] [⟨TarType.link, "l", "t", 420, []⟩,
        ⟨TarType.reg, "../evil", "", 420, [1]⟩] ⟨[], 0⟩ "/d").2 =
      some (FsErr.outside "/evil" "/d.tmp") ∧
    fsLookup (InflateTar [] [⟨TarType.link, "l", "t", 420, []⟩,
        ⟨TarType.reg, "../evil", "", 420, [1]⟩] ⟨[], 0⟩ "/d").1.1 ["d"] =
      some (Node.dir 448) ∧
    (InflateTar [] [⟨TarType.symlink, "s", "/d", 420, []⟩,
        ⟨TarType.reg, "s", "", 420, [7]⟩,
        ⟨TarType.reg, "../evil", "", 420, [1]⟩] ⟨[], 0⟩ "/d").2 =
      some (FsErr.outside "/evil" "/d.tmp") ∧
    fsLookup (InflateTar [] [⟨TarType.symlink, "s", "/d", 420, []⟩,
        ⟨TarType.reg, "s", "", 420, [7]⟩,
        ⟨TarType.reg, "../evil", "", 420, [1]⟩] ⟨[], 0⟩ "/d").1.1 ["d"] =
      some (Node.file [7] 420) := by
  decide

/-- C2 (amended): in every supported format, an entry whose name joined to
the staging root yields a relative path beginning with a parent-traversal
prefix makes extraction fail with a containment-violation error naming both
the offending path and the root, whatever its position in the archive and
whatever entries follow; and — provided no hard-link and no symlink entry
precedes it, starting from a symlink-free filesystem — the destination path
is not created or modified (every path at or below the destination that was
absent before is still absent).  The four conjuncts cover tar, tar.gz,
tar.xz and zip; hard-link and symlink entries are excluded because either
kind lets earlier entries plant content under the final destination, as
`c2_counterexample` shows. -/
theorem c2_theorem :
    (∀ (fs0 fs1 fsmid : FS) (pre rest : List TarEntry) (bad : TarEntry)
      (reader : Stream) (path : String) (f r : String),
      mkdirAll fs0 (pathComps (path ++ ".tmp")) 448 = (fs1, none) →
      inflateTarLoop path (pathComps (path ++ ".tmp")) fs1 pre = (fsmid, none) →
      bad.name ≠ "pax_global_header" →
      ensureFileInDir (pathComps (path ++ ".tmp")) bad.name =
        .error (FsErr.outside f r) →
      (∀ e ∈ pre, e.typeflag ≠ TarType.link ∧ e.typeflag ≠ TarType.symlink) →
      noSymNodes fs0 →
      isPre (pathComps path) (pathComps (path ++ ".tmp")) = false →
      isPre (pathComps (path ++ ".tmp")) (pathComps path) = false →
      (∀ q, isPre (pathComps path) q = true → fsLookup fs0 q = none) →
      (InflateTar fs0 (pre ++ bad :: rest) reader path).2 =
        some (FsErr.outside f r) ∧
      ∀ p, isPre (pathComps path) p = true →
        fsLookup (InflateTar fs0 (pre ++ bad :: rest) reader path).1.1 p = none) ∧
    (∀ (fs0 fs1 fsmid : FS) (pre rest : List TarEntry) (bad : TarEntry)
      (ds reader : Stream) (path : String) (f r : String),
      mkdirAll fs0 (pathComps (path ++ ".tmp")) 448 = (fs1, none) →
      inflateTarLoop path (pathComps (path ++ ".tmp")) fs1 pre = (fsmid, none) →
      bad.name ≠ "pax_global_header" →
      ensureFileInDir (pathComps (path ++ ".tmp")) bad.name =
        .error (FsErr.outside f r) →
      (∀ e ∈ pre, e.typeflag ≠ TarType.link ∧ e.typeflag ≠ TarType.symlink) →
      noSymNodes fs0 →
      isPre (pathComps path) (pathComps (path ++ ".tmp")) = false →
      isPre (pathComps (path ++ ".tmp")) (pathComps path) = false →
      (∀ q, isPre (pathComps path) q = true → fsLookup fs0 q = none) →
      (InflateTarGz fs0 (.ok (pre ++ bad :: rest, ds)) reader path).2 =
        some (FsErr.outside f r) ∧
      ∀ p, isPre (pathComps path) p = true →
        fsLookup (InflateTarGz fs0 (.ok (pre ++ bad :: rest, ds)) reader path).1.1 p
          = none) ∧
    (∀ (fs0 fs1 fsmid : FS) (pre rest : List TarEntry) (bad : TarEntry)
      (ds reader : Stream) (path : String) (f r : String),
      mkdirAll fs0 (pathComps (path ++ ".tmp")) 448 = (fs1, none) →
      inflateTarLoop path (pathComps (path ++ ".tmp")) fs1 pre = (fsmid, none) →
      bad.name ≠ "pax_global_header" →
      ensureFileInDir (pathComps (path ++ ".tmp")) bad.name =
        .error (FsErr.outside f r) →
      (∀ e ∈ pre, e.typeflag ≠ TarType.link ∧ e.typeflag ≠ TarType.symlink) →
      noSymNodes fs0 →
      isPre (pathComps path) (pathComps (path ++ ".tmp")) = false →
      isPre (pathComps (path ++ ".tmp")) (pathComps path) = false →
      (∀ q, isPre (pathComps path) q = true → fsLookup fs0 q = none) →
      (InflateTarXz fs0 (.ok (pre ++ bad :: rest, ds)) reader path).2 =
        some (FsErr.outside f r) ∧
      ∀ p, isPre (pathComps path) p = true →
        fsLookup (InflateTarXz fs0 (.ok (pre ++ bad :: rest, ds)) reader path).1.1 p
          = none) ∧
    (∀ (fs0 fs1 fsmid : FS) (pre rest : List ZipEntry) (bad : ZipEntry)
      (data : List Nat) (parse : List Nat → Except FsErr (List ZipEntry))
      (path : String) (f r : String),
      mkdirAll fs0 (pathComps (path ++ ".tmp")) 448 = (fs1, none) →
      parse data = .ok (pre ++ bad :: rest) →
      inflateZipLoop (pathComps (path ++ ".tmp")) fs1 pre = (fsmid, none) →
      bad.openOk = true →
      noSymNodes fs0 →
      ensureFileInDir (pathComps (path ++ ".tmp")) bad.name =
        .error (FsErr.outside f r) →
      isPre (pathComps path) (pathComps (path ++ ".tmp")) = false →
      isPre (pathComps (path ++ ".tmp")) (pathComps path) = false →
      (∀ q, isPre (pathComps path) q = true → fsLookup fs0 q = none) →
      (InflateZip fs0 true data parse path).2 = some (FsErr.outside f r) ∧
      ∀ p, isPre (pathComps path) p = true →
        fsLookup (InflateZip fs0 true data parse path).1 p = none) := by
  refine ⟨?_, ?_, ?_, ?_⟩
  · intro fs0 fs1 fsmid pre rest bad reader path f r hm hpre hpax hbad hnl hns0
      hsep1 hsep2 hdest
    rw [tarContainment_core fs0 fs1 fsmid pre rest bad reader path f r hm hpre
      hpax hbad]
    exact ⟨rfl, fun p hp => tar_staging_cleanup_none fs0 fs1 fsmid pre path hm
      hpre hnl hns0 hsep1 hsep2 hdest hp⟩
  · intro fs0 fs1 fsmid pre rest bad ds reader path f r hm hpre hpax hbad hnl
      hns0 hsep1 hsep2 hdest
    have hcore := tarContainment_core fs0 fs1 fsmid pre rest bad ds path f r hm
      hpre hpax hbad
    simp only [InflateTarGz, hcore]
    exact ⟨trivial, fun p hp => tar_staging_cleanup_none fs0 fs1 fsmid pre path hm
      hpre hnl hns0 hsep1 hsep2 hdest hp⟩
  · intro fs0 fs1 fsmid pre rest bad ds reader path f r hm hpre hpax hbad hnl
      hns0 hsep1 hsep2 hdest
    have hcore := tarContainment_core fs0 fs1 fsmid pre rest bad ds path f r hm
      hpre hpax hbad
    simp only [InflateTarXz, hcore]
    exact ⟨trivial, fun p hp => tar_staging_cleanup_none fs0 fs1 fsmid pre path hm
      hpre hnl hns0 hsep1 hsep2 hdest hp⟩
  · intro fs0 fs1 fsmid pre rest bad data parse path f r hm hparse hpre hopen
      hns0 hbad hsep1 hsep2 hdest
    rw [zipContainment_core fs0 fs1 fsmid pre rest bad data parse path f r hm
      hparse hpre hopen hbad]
    exact ⟨rfl, fun p hp => zip_staging_cleanup_none fs0 fs1 fsmid pre path hm
      hpre hns0 hsep1 hsep2 hdest hp⟩

theorem c2_theorem_witness :
    (InflateTar [] ([] ++ ⟨TarType.reg, "../../etc/passwd", "", 420, [1]⟩ ::
        ([] : List TarEntry)) ⟨[], 0⟩ "/d").2 =
      some (FsErr.outside "/etc/passwd" "/d.tmp") ∧
    (InflateZip [] true []
        (fun _ => .ok [⟨"../../etc/passwd", false, 420, [1], true⟩]) "/d").2 =
      some (FsErr.outside "/etc/passwd" "/d.tmp") := by
  constructor
  · exact (c2_theorem.1 [] [(["d.tmp"], Node.dir 448)] [(["d.tmp"], Node.dir 448)]
      [] [] ⟨TarType.reg, "../../etc/passwd", "", 420, [1]⟩ ⟨[], 0⟩ "/d"
      "/etc/passwd" "/d.tmp" (by decide) (by decide) (by decide) (by decide)
      (fun e he => absurd he (List.not_mem_nil e))
      (fun kv hkv => absurd hkv (List.not_mem_nil kv))
      (by decide) (by decide) (fun q _ => rfl)).1
  · exact (c2_theorem.2.2.2 [] [(["d.tmp"], Node.dir 448)]
      [(["d.tmp"], Node.dir 448)] [] []
      ⟨"../../etc/passwd", false, 420, [1], true⟩ []
      (fun _ => .ok [⟨"../../etc/passwd", false, 420, [1], true⟩]) "/d"
      "/etc/passwd" "/d.tmp" (by decide) rfl (by decide) rfl
      (fun kv hkv => absurd hkv (List.not_mem_nil kv)) (by decide)
      (by decide) (by decide) (fun q _ => rfl)).1
/-! ### Claim C3 -/

/-- C3: for a tar hard-link entry whose name passes the containment check,
(1) the link target is `path + "/" + linkname`, i.e. it is interpreted
relative to the *final* destination path, not the staging path; (2) the
parent directories of both the link path (`mkdirAll` on `q.dropLast`) and
the target (`mkdirAll` on `goDirComps`) are ensured; (3) when the target
does not yet exist an empty placeholder file with the entry's mode is
created first, and when it already exists the `O_EXCL` already-exists
failure is tolerated: for a non-directory node the hard link is still
established and processing succeeds, while for a directory node `os.Link`
itself fails `EPERM` — a distinct, correctly fatal error, not an
already-exists failure — so a placeholder-creation failure is fatal exactly
when it is not an already-exists failure. -/
theorem c3_theorem (fs fs1 fs2 : FS) (path : String) (tmp q : Path)
    (e : TarEntry) (m : Nat)
    (htf : e.typeflag = TarType.link)
    (hname : ensureFileInDir tmp e.name = .ok (some q))
    (h1 : mkdirAll fs q.dropLast 448 = (fs1, none))
    (h2 : mkdirAll fs1 (goDirComps (path ++ "/" ++ e.linkname)) 448 = (fs2, none))
    (hparent : fsLookup fs2 (pathComps (path ++ "/" ++ e.linkname)).dropLast =
      some (Node.dir m))
    (hq : fsLookup fs2 q = none)
    (hqparent : ∃ m2, fsLookup fs2 q.dropLast = some (Node.dir m2))
    (hne : q ≠ pathComps (path ++ "/" ++ e.linkname))
    (hne2 : q.dropLast ≠ pathComps (path ++ "/" ++ e.linkname)) :
    inflateTarEntry fs path tmp e =
      match fsLookup fs2 (pathComps (path ++ "/" ++ e.linkname)) with
      | none =>
        (fsInsert (fsInsert fs2 (pathComps (path ++ "/" ++ e.linkname))
          (Node.file [] e.mode)) q
          (Node.hardlink (pathComps (path ++ "/" ++ e.linkname))), none)
      | some (Node.dir _) =>
        (fs2, some (FsErr.notPermitted
          (compsToString (pathComps (path ++ "/" ++ e.linkname)))))
      | some _ =>
        (fsInsert fs2 q (Node.hardlink (pathComps (path ++ "/" ++ e.linkname))),
          none) := by
  obtain ⟨m2, hqp⟩ := hqparent
  simp only [inflateTarEntry, hname, htf, h1, h2]
  cases hL : fsLookup fs2 (pathComps (path ++ "/" ++ e.linkname)) with
  | none =>
    have hopen := openExcl_absent fs2 (pathComps (path ++ "/" ++ e.linkname))
      e.mode m hL hparent
    have ha := fsLookup_insert_self fs2 (pathComps (path ++ "/" ++ e.linkname))
      (Node.file [] e.mode)
    have hb := fsLookup_insert_ne fs2 (p := pathComps (path ++ "/" ++ e.linkname))
      (Node.file [] e.mode) hne
    have hc := fsLookup_insert_ne fs2 (p := pathComps (path ++ "/" ++ e.linkname))
      (Node.file [] e.mode) hne2
    have hlink := linkCreate_ok
      (fsInsert fs2 (pathComps (path ++ "/" ++ e.linkname)) (Node.file [] e.mode))
      (pathComps (path ++ "/" ++ e.linkname)) q (Node.file [] e.mode) m2
      ha rfl (hb.trans hq) (hc.trans hqp)
    simp only [hopen, hlink]
  | some n =>
    have hopen := openExcl_exists fs2 (pathComps (path ++ "/" ++ e.linkname))
      e.mode n hL
    cases n with
    | dir md =>
      have hlink := linkCreate_dir fs2 (pathComps (path ++ "/" ++ e.linkname)) q
        md hL
      simp only [hopen, hlink]
    | file c md =>
      have hlink := linkCreate_ok fs2 (pathComps (path ++ "/" ++ e.linkname)) q
        (Node.file c md) m2 hL rfl hq hqp
      simp only [hopen, hlink]
    | symlink t =>
      have hlink := linkCreate_ok fs2 (pathComps (path ++ "/" ++ e.linkname)) q
        (Node.symlink t) m2 hL rfl hq hqp
      simp only [hopen, hlink]
    | hardlink t =>
      have hlink := linkCreate_ok fs2 (pathComps (path ++ "/" ++ e.linkname)) q
        (Node.hardlink t) m2 hL rfl hq hqp
      simp only [hopen, hlink]

theorem c3_theorem_witness :
    inflateTarEntry [(["d.tmp"], Node.dir 448)] "/d" ["d.tmp"]
      ⟨TarType.link, "l", "t", 420, []⟩ =
      (fsInsert (fsInsert [(["d"], Node.dir 448), (["d.tmp"], Node.dir 448)]
        ["d", "t"] (Node.file [] 420)) ["d.tmp", "l"]
        (Node.hardlink ["d", "t"]), none) :=
  c3_theorem [(["d.tmp"], Node.dir 448)] [(["d.tmp"], Node.dir 448)]
    [(["d"], Node.dir 448), (["d.tmp"], Node.dir 448)] "/d" ["d.tmp"]
    ["d.tmp", "l"] ⟨TarType.link, "l", "t", 420, []⟩ 448
    rfl (by decide) (by decide) (by decide) (by decide) (by decide)
    ⟨448, by decide⟩ (by decide) (by decide)
/-! ### Claim C4 -/

/-- C4, as stated, is false on the code: the regular-file branch opens the
file with `O_CREATE|O_WRONLY` but *without* `O_TRUNC`, so when a file
already exists at the resolved staging path (e.g. a duplicate entry name)
the payload overwrites only its leading bytes — stale trailing bytes
survive — and the existing mode is kept, not the entry's.  Concretely:
processing entry `a` with payload `[9]` and mode `0o755` over a staged file
`a` containing `[1,2,3]` with mode `0o644` succeeds and leaves
`[9,2,3]` with mode `0o644`, not `[9]` with mode `0o755`. -/
theorem c4_counterexample :
    (inflateTarEntry
      [(["d.tmp"], Node.dir 448), (["d.tmp", "a"], Node.file [1, 2, 3] 420)]
      "/d" ["d.tmp"] ⟨TarType.reg, "a", "", 493, [9]⟩).2 = none ∧
    fsLookup (inflateTarEntry
      [(["d.tmp"], Node.dir 448), (["d.tmp", "a"], Node.file [1, 2, 3] 420)]
      "/d" ["d.tmp"] ⟨TarType.reg, "a", "", 493, [9]⟩).1 ["d.tmp", "a"] =
      some (Node.file [9, 2, 3] 420) ∧
    Node.file [9, 2, 3] 420 ≠ Node.file [9] 493 := by
  decide

/-- C4 (amended): for every tar or zip regular-file entry, after the entry
is processed the file at the resolved staging path exists; when no file was
previously present there it is created with the entry's mode and contains
exactly the entry's payload (copied in full before the open file is
dropped); when a regular file was already present, the payload overwrites
its leading bytes without truncation and the prior mode is retained.  The
four conjuncts cover tar/new, tar/pre-existing, zip/new, zip/pre-existing. -/
theorem c4_theorem :
    (∀ (fs fs1 : FS) (path : String) (tmp q : Path) (e : TarEntry) (m : Nat),
      e.typeflag = TarType.reg →
      ensureFileInDir tmp e.name = .ok (some q) →
      mkdirAll fs q.dropLast 448 = (fs1, none) →
      fsLookup fs1 q = none →
      fsLookup fs1 q.dropLast = some (Node.dir m) →
      inflateTarEntry fs path tmp e =
        (fsInsert fs1 q (Node.file e.content e.mode), none)) ∧
    (∀ (fs fs1 : FS) (path : String) (tmp q : Path) (e : TarEntry)
      (old : List Nat) (mold : Nat),
      e.typeflag = TarType.reg →
      ensureFileInDir tmp e.name = .ok (some q) →
      mkdirAll fs q.dropLast 448 = (fs1, none) →
      fsLookup fs1 q = some (Node.file old mold) →
      inflateTarEntry fs path tmp e =
        (fsInsert fs1 q
          (Node.file (e.content ++ old.drop e.content.length) mold), none)) ∧
    (∀ (fs fs1 : FS) (tmp q : Path) (zf : ZipEntry) (m : Nat),
      zf.openOk = true →
      zf.isDir = false →
      ensureFileInDir tmp zf.name = .ok (some q) →
      mkdirAll fs q.dropLast 448 = (fs1, none) →
      fsLookup fs1 q = none →
      fsLookup fs1 q.dropLast = some (Node.dir m) →
      inflateZipEntry fs tmp zf =
        (fsInsert fs1 q (Node.file zf.content zf.mode), none)) ∧
    (∀ (fs fs1 : FS) (tmp q : Path) (zf : ZipEntry) (old : List Nat) (mold : Nat),
      zf.openOk = true →
      zf.isDir = false →
      ensureFileInDir tmp zf.name = .ok (some q) →
      mkdirAll fs q.dropLast 448 = (fs1, none) →
      fsLookup fs1 q = some (Node.file old mold) →
      inflateZipEntry fs tmp zf =
        (fsInsert fs1 q
          (Node.file (zf.content ++ old.drop zf.content.length) mold), none)) := by
  refine ⟨?_, ?_, ?_, ?_⟩
  · intro fs fs1 path tmp q e m htf hname hmk hq hparent
    simp only [inflateTarEntry, hname, htf, hmk]
    exact openWrite_create fs1 q e.mode e.content m hq hparent
  · intro fs fs1 path tmp q e old mold htf hname hmk hq
    simp only [inflateTarEntry, hname, htf, hmk]
    exact openWrite_over fs1 q e.mode e.content old mold hq
  · intro fs fs1 tmp q zf m hopen hdir hname hmk hq hparent
    simp only [inflateZipEntry, hopen, Bool.not_true, Bool.false_eq_true,
      if_false, hname, hdir, hmk]
    exact openWrite_create fs1 q zf.mode zf.content m hq hparent
  · intro fs fs1 tmp q zf old mold hopen hdir hname hmk hq
    simp only [inflateZipEntry, hopen, Bool.not_true, Bool.false_eq_true,
      if_false, hname, hdir, hmk]
    exact openWrite_over fs1 q zf.mode zf.content old mold hq

theorem c4_theorem_witness :
    inflateTarEntry [(["d.tmp"], Node.dir 448)] "/d" ["d.tmp"]
      ⟨TarType.reg, "a", "", 420, [1, 2, 3]⟩ =
      (fsInsert [(["d.tmp"], Node.dir 448)] ["d.tmp", "a"]
        (Node.file [1, 2, 3] 420), none) ∧
    inflateTarEntry [(["d.tmp"], Node.dir 448), (["d.tmp", "a"], Node.file [1, 2, 3] 420)]
      "/d" ["d.tmp"] ⟨TarType.reg, "a", "", 493, [9]⟩ =
      (fsInsert [(["d.tmp"], Node.dir 448), (["d.tmp", "a"], Node.file [1, 2, 3] 420)]
        ["d.tmp", "a"] (Node.file [9, 2, 3] 420), none) ∧
    inflateZipEntry [(["d.tmp"], Node.dir 448)] ["d.tmp"]
      ⟨"b", false, 420, [4, 5], true⟩ =
      (fsInsert [(["d.tmp"], Node.dir 448)] ["d.tmp", "b"]
        (Node.file [4, 5] 420), none) ∧
    inflateZipEntry [(["d.tmp"], Node.dir 448), (["d.tmp", "b"], Node.file [4, 5] 416)]
      ["d.tmp"] ⟨"b", false, 420, [6], true⟩ =
      (fsInsert [(["d.tmp"], Node.dir 448), (["d.tmp", "b"], Node.file [4, 5] 416)]
        ["d.tmp", "b"] (Node.file [6, 5] 416), none) := by
  refine ⟨?_, ?_, ?_, ?_⟩
  · exact c4_theorem.1 [(["d.tmp"], Node.dir 448)] [(["d.tmp"], Node.dir 448)]
      "/d" ["d.tmp"] ["d.tmp", "a"] ⟨TarType.reg, "a", "", 420, [1, 2, 3]⟩ 448
      rfl (by decide) (by decide) (by decide) (by decide)
  · exact c4_theorem.2.1 [(["d.tmp"], Node.dir 448), (["d.tmp", "a"], Node.file [1, 2, 3] 420)]
      [(["d.tmp"], Node.dir 448), (["d.tmp", "a"], Node.file [1, 2, 3] 420)]
      "/d" ["d.tmp"] ["d.tmp", "a"] ⟨TarType.reg, "a", "", 493, [9]⟩ [1, 2, 3] 420
      rfl (by decide) (by decide) (by decide)
  · exact c4_theorem.2.2.1 [(["d.tmp"], Node.dir 448)] [(["d.tmp"], Node.dir 448)]
      ["d.tmp"] ["d.tmp", "b"] ⟨"b", false, 420, [4, 5], true⟩ 448
      rfl rfl (by decide) (by decide) (by decide) (by decide)
  · exact c4_theorem.2.2.2 [(["d.tmp"], Node.dir 448), (["d.tmp", "b"], Node.file [4, 5] 416)]
      [(["d.tmp"], Node.dir 448), (["d.tmp", "b"], Node.file [4, 5] 416)]
      ["d.tmp"] ["d.tmp", "b"] ⟨"b", false, 420, [6], true⟩ [4, 5] 416
      rfl rfl (by decide) (by decide) (by decide)

/-! ### Claim C5 -/

/-- C5: on every successful extraction, the original input stream has been
read to completion by the time the call returns: for plain tar the reader is
drained at end-of-archive (before the staging directory is promoted, as the
definition of `InflateTar` sequences `drain` before `fsRename`), and for
tar.gz / tar.xz the original compressed stream — at whatever position the
decompressor left it — is drained after the inner tar extraction succeeds,
so a digest computed over the original stream covers the entire input. -/
theorem c5_theorem :
    (∀ (fs0 : FS) (entries : List TarEntry) (reader : Stream) (path : String)
      (fs' : FS) (s' : Stream),
      InflateTar fs0 entries reader path = ((fs', s'), none) →
      s'.data = reader.data ∧ s'.pos = reader.data.length) ∧
    (∀ (fs0 : FS) (gz : Except FsErr (List TarEntry × Stream)) (reader : Stream)
      (path : String) (fs' : FS) (s' : Stream),
      InflateTarGz fs0 gz reader path = ((fs', s'), none) →
      s'.data = reader.data ∧ s'.pos = reader.data.length) ∧
    (∀ (fs0 : FS) (xz : Except FsErr (List TarEntry × Stream)) (reader : Stream)
      (path : String) (fs' : FS) (s' : Stream),
      InflateTarXz fs0 xz reader path = ((fs', s'), none) →
      s'.data = reader.data ∧ s'.pos = reader.data.length) := by
  have htar : ∀ (fs0 : FS) (entries : List TarEntry) (reader : Stream)
      (path : String) (fs' : FS) (s' : Stream),
      InflateTar fs0 entries reader path = ((fs', s'), none) →
      s'.data = reader.data ∧ s'.pos = reader.data.length := by
    intro fs0 entries reader path fs' s' h
    simp only [InflateTar] at h
    split at h
    · simp only [Prod.mk.injEq] at h
      exact absurd h.2 (by simp)
    · split at h
      · simp only [Prod.mk.injEq] at h
        exact absurd h.2 (by simp)
      · split at h
        · simp only [Prod.mk.injEq] at h
          exact absurd h.2 (by simp)
        · simp only [Prod.mk.injEq] at h
          obtain ⟨⟨_, hs⟩, _⟩ := h
          rw [← hs]
          exact ⟨rfl, rfl⟩
  refine ⟨htar, ?_, ?_⟩
  · intro fs0 gz reader path fs' s' h
    simp only [InflateTarGz] at h
    split at h
    · simp only [Prod.mk.injEq] at h
      exact absurd h.2 (by simp)
    · rename_i entries ds
      split at h
      · simp only [Prod.mk.injEq] at h
        exact absurd h.2 (by simp)
      · simp only [Prod.mk.injEq] at h
        obtain ⟨⟨_, hs⟩, _⟩ := h
        rw [← hs]
        exact ⟨rfl, rfl⟩
  · intro fs0 xz reader path fs' s' h
    simp only [InflateTarXz] at h
    split at h
    · simp only [Prod.mk.injEq] at h
      exact absurd h.2 (by simp)
    · rename_i entries ds
      split at h
      · simp only [Prod.mk.injEq] at h
        exact absurd h.2 (by simp)
      · simp only [Prod.mk.injEq] at h
        obtain ⟨⟨_, hs⟩, _⟩ := h
        rw [← hs]
        exact ⟨rfl, rfl⟩

theorem c5_theorem_witness :
    ((⟨[7, 7], 2⟩ : Stream).data = [7, 7] ∧ (⟨[7, 7], 2⟩ : Stream).pos = 2) ∧
    ((⟨[5], 1⟩ : Stream).data = [5] ∧ (⟨[5], 1⟩ : Stream).pos = 1) ∧
    ((⟨[6], 1⟩ : Stream).data = [6] ∧ (⟨[6], 1⟩ : Stream).pos = 1) :=
  ⟨c5_theorem.1 [] [] ⟨[7, 7], 0⟩ "/d" [(["d"], Node.dir 448)] ⟨[7, 7], 2⟩
      (by decide),
    c5_theorem.2.1 [] (.ok ([], ⟨[], 0⟩)) ⟨[5], 0⟩ "/d" [(["d"], Node.dir 448)]
      ⟨[5], 1⟩ (by decide),
    c5_theorem.2.2 [] (.ok ([], ⟨[], 0⟩)) ⟨[6], 0⟩ "/d" [(["d"], Node.dir 448)]
      ⟨[6], 1⟩ (by decide)⟩
/-! ### Claim C6 -/

/-- C6: `ValidateChecksum` first reads all remaining unread bytes of the
wrapped stream (the returned reader is at end of stream), then compares the
hex-encoded digest of the *entire* stream contents with the expected value;
on mismatch it returns a verification error carrying both the expected and
the computed value, otherwise success. -/
theorem c6_theorem (h : List Nat → List Nat) (hr : HashingReader) :
    (ValidateChecksum h hr).2.pos = hr.data.length ∧
    (ValidateChecksum h hr).2.data = hr.data ∧
    (ValidateChecksum h hr).1 =
      (if hexEncode (h hr.data) = hr.checksum then .ok ()
       else .error (.mismatch (String.mk hr.checksum)
         (String.mk (hexEncode (h hr.data))))) := by
  have hpos : (ValidateChecksum h hr).2 = { hr with pos := hr.data.length } := by
    unfold ValidateChecksum
    split <;> rfl
  refine ⟨by rw [hpos], by rw [hpos], ?_⟩
  unfold ValidateChecksum
  simp only [List.take_length]
  by_cases hc : hexEncode (h hr.data) = hr.checksum
  · rw [if_neg (fun hne => hne hc), if_pos hc]
  · rw [if_pos hc, if_neg hc]

/-! ### Claim C7 -/

theorem splitFirstColon_eq : ∀ (l a b : List Char),
    splitFirstColon l = some (a, b) → l = a ++ ':' :: b := by
  intro l
  induction l with
  | nil => intro a b hab; exact absurd hab (by simp [splitFirstColon])
  | cons c cs ih =>
    intro a b hab
    unfold splitFirstColon at hab
    by_cases hc : c = ':'
    · rw [if_pos hc] at hab
      simp only [Option.some.injEq, Prod.mk.injEq] at hab
      rw [← hab.1, ← hab.2, hc]
      rfl
    · rw [if_neg hc] at hab
      cases hcs : splitFirstColon cs with
      | none => rw [hcs] at hab; exact absurd hab (by simp)
      | some p =>
        rw [hcs] at hab
        simp only [Option.map, Option.some.injEq, Prod.mk.injEq] at hab
        have := ih p.1 p.2 (by rw [hcs])
        rw [← hab.1, ← hab.2, List.cons_append, ← this]

theorem splitFirstColon_append : ∀ (l r : List Char), ':' ∉ l →
    splitFirstColon (l ++ ':' :: r) = some (l, r) := by
  intro l
  induction l with
  | nil => intro r _; simp [splitFirstColon]
  | cons c cs ih =>
    intro r hl
    have hc : c ≠ ':' := fun hh => hl (hh ▸ List.mem_cons_self c cs)
    rw [List.cons_append]
    unfold splitFirstColon
    rw [if_neg hc, ih r (fun hh => hl (List.mem_cons_of_mem c hh))]
    rfl

/-- C7: `NewHashingReader` succeeds exactly when the checksum specification
starts with `"sha256:"` — i.e. it fails if and only if the string has no
colon (malformed, not an `algorithm:digest` pair) or the part before the
first colon is not the single registered algorithm `sha256`; matching is
case-sensitive (`"SHA256:ab"` is rejected as an unsupported algorithm, and a
colon-free string is rejected as malformed). -/
theorem c7_theorem :
    (∀ (data : List Nat) (checksum : String),
      (∃ hr, NewHashingReader data checksum = .ok hr) ↔
        ∃ rest : List Char, checksum.data = "sha256:".data ++ rest) ∧
    NewHashingReader [] "SHA256:ab" = .error (.unsupportedAlgo "SHA256") ∧
    NewHashingReader [] "deadbeef" = .error (.badFormat "deadbeef") ∧
    NewHashingReader [] "sha256:ab" = .ok ⟨[], 0, ['a', 'b']⟩ := by
  refine ⟨?_, by decide, by decide, by decide⟩
  intro data checksum
  constructor
  · rintro ⟨hr, hok⟩
    unfold NewHashingReader at hok
    cases hsp : splitFirstColon checksum.data with
    | none => rw [hsp] at hok; exact absurd hok (by simp)
    | some p =>
      rw [hsp] at hok
      by_cases ha : p.1 = "sha256".data
      · refine ⟨p.2, ?_⟩
        have := splitFirstColon_eq checksum.data p.1 p.2 (by rw [hsp])
        rw [this, ha]
        rfl
      · exfalso
        have hx : (match (p.1, p.2) with
            | (algo, digest) =>
              if algo = "sha256".data then
                Except.ok { data := data, pos := 0, checksum := digest }
              else Except.error (HashErr.unsupportedAlgo (String.mk algo))) =
            Except.ok hr := hok
        simp only [if_neg ha] at hx
        exact absurd hx (by simp)
  · rintro ⟨rest, hrest⟩
    have hdata : checksum.data = "sha256".data ++ ':' :: rest := by
      rw [hrest]
      rfl
    refine ⟨{ data := data, pos := 0, checksum := rest }, ?_⟩
    unfold NewHashingReader
    rw [hdata, splitFirstColon_append "sha256".data rest (by decide)]
    rfl

theorem c7_theorem_witness :
    ∃ hr, NewHashingReader [1, 2] "sha256:abcd" = .ok hr :=
  (c7_theorem.1 [1, 2] "sha256:abcd").2 ⟨['a', 'b', 'c', 'd'], by decide⟩

/-! ### Claim C8 -/

/-- C8: the dispatch switch of `Inflate` routes names by suffix in source
precedence: `"a.tar"`, `"a.tar.gz"`, `"a.tgz"`, `"a.tar.xz"`, `"a.zip"` go
to tar, tar-gz, tar-gz, tar-xz, zip respectively, and a name matching none
of the suffixes — such as `"a.rar"` — yields an unknown-format error
carrying the offending name (the final conjunct characterises the no-match
case exactly). -/
theorem c8_theorem :
    Inflate "a.tar" = .ok Format.tar ∧
    Inflate "a.tar.gz" = .ok Format.targz ∧
    Inflate "a.tgz" = .ok Format.targz ∧
    Inflate "a.tar.xz" = .ok Format.tarxz ∧
    Inflate "a.zip" = .ok Format.zip ∧
    Inflate "a.rar" = .error (.unknownFormat "a.rar") ∧
    (∀ name : String,
      Inflate name = .error (FsErr.unknownFormat name) ↔
        (hasSuffix name ".tar" = false ∧ hasSuffix name ".tar.gz" = false ∧
          hasSuffix name ".tgz" = false ∧ hasSuffix name ".tar.xz" = false ∧
          hasSuffix name ".zip" = false)) := by
  refine ⟨by decide, by decide, by decide, by decide, by decide, by decide, ?_⟩
  intro name
  unfold Inflate
  cases h1 : hasSuffix name ".tar" <;>
    cases h2 : hasSuffix name ".tar.gz" <;>
      cases h3 : hasSuffix name ".tgz" <;>
        cases h4 : hasSuffix name ".tar.xz" <;>
          cases h5 : hasSuffix name ".zip" <;>
            simp_all

theorem c8_theorem_witness :
    Inflate "b.rar" = .error (FsErr.unknownFormat "b.rar") :=
  (c8_theorem.2.2.2.2.2.2 "b.rar").2 (by decide)
/-! ### Claim C9 -/

theorem zipBody_lookup (fs : FS) (data : List Nat)
    (parse : List Nat → Except FsErr (List ZipEntry)) (path : String)
    {p : Path} (hns : noSymNodes fs)
    (h1 : isPre p (pathComps (path ++ ".tmp")) = false)
    (h2 : isPre (pathComps (path ++ ".tmp")) p = false)
    (h3 : isPre (pathComps path) p = false) :
    fsLookup (zipBody fs data parse (pathComps (path ++ ".tmp")) path).1 p =
      fsLookup fs p := by
  unfold zipBody
  split
  · rfl
  · rename_i entries hparse
    rcases hloop : inflateZipLoop (pathComps (path ++ ".tmp")) fs entries
      with ⟨fs1, o⟩
    have hlp := inflateZipLoop_lookup (pathComps (path ++ ".tmp")) h1 h2 entries fs
      hns
    rw [hloop] at hlp
    cases o with
    | some err => exact hlp
    | none =>
      exact (fsRename_lookup fs1 (pathComps (path ++ ".tmp")) (pathComps path)
        h2 h3).trans hlp

/-- C9: in `InflateZip`, a reader that is already an `*os.File` is used
directly — the spool path `tmpPath + ".zip"` is never touched — and for any
other reader the stream's full contents are spooled into that temporary
file, which is gone again on every path leaving the call after its
creation: whether extraction succeeds, the catalog fails to parse, an entry
fails, or the final rename fails, the spool path holds nothing when the
call returns (given it held nothing before).  The `*os.File` conjunct
assumes a symlink-free starting filesystem: a pre-planted symlink under the
staging path could redirect an entry write onto the spool path itself,
in the code just as in the model. -/
theorem c9_theorem :
    (∀ (fs0 : FS) (data : List Nat)
      (parse : List Nat → Except FsErr (List ZipEntry)) (path : String),
      isPre (pathComps (compsToString (pathComps (path ++ ".tmp")) ++ ".zip"))
        (pathComps (path ++ ".tmp")) = false →
      isPre (pathComps (path ++ ".tmp"))
        (pathComps (compsToString (pathComps (path ++ ".tmp")) ++ ".zip")) = false →
      isPre (pathComps path)
        (pathComps (compsToString (pathComps (path ++ ".tmp")) ++ ".zip")) = false →
      noSymNodes fs0 →
      fsLookup (InflateZip fs0 true data parse path).1
          (pathComps (compsToString (pathComps (path ++ ".tmp")) ++ ".zip")) =
        fsLookup fs0
          (pathComps (compsToString (pathComps (path ++ ".tmp")) ++ ".zip"))) ∧
    (∀ (fs0 : FS) (data : List Nat)
      (parse : List Nat → Except FsErr (List ZipEntry)) (path : String),
      isPre (pathComps (compsToString (pathComps (path ++ ".tmp")) ++ ".zip"))
        (pathComps (path ++ ".tmp")) = false →
      isPre (pathComps (path ++ ".tmp"))
        (pathComps (compsToString (pathComps (path ++ ".tmp")) ++ ".zip")) = false →
      isPre (pathComps path)
        (pathComps (compsToString (pathComps (path ++ ".tmp")) ++ ".zip")) = false →
      fsLookup fs0
        (pathComps (compsToString (pathComps (path ++ ".tmp")) ++ ".zip")) = none →
      fsLookup (InflateZip fs0 false data parse path).1
        (pathComps (compsToString (pathComps (path ++ ".tmp")) ++ ".zip")) = none) := by
  constructor
  · intro fs0 data parse path hzs hsz hdz hns0
    simp only [InflateZip]
    split
    · rename_i fs1 err hm
      have hmk := mkdirAll_lookup fs0 (pathComps (path ++ ".tmp")) 448 hzs
      rw [hm] at hmk
      exact hmk
    · rename_i fs1 hm
      have hmk := mkdirAll_lookup fs0 (pathComps (path ++ ".tmp")) 448 hzs
      rw [hm] at hmk
      have hns1 : noSymNodes fs1 := by
        have hx := noSymNodes_mkdirAll fs0 (pathComps (path ++ ".tmp")) 448 hns0
        rw [hm] at hx
        exact hx
      rw [if_pos trivial]
      rcases hbody : zipBody fs1 data parse (pathComps (path ++ ".tmp")) path
        with ⟨fs2, o⟩
      have hbl := zipBody_lookup fs1 data parse path hns1 hzs hsz hdz
      rw [hbody] at hbl
      cases o with
      | none => exact hbl.trans hmk
      | some err =>
        rw [fsLookup_removeAll_notPre fs2 hsz]
        exact hbl.trans hmk
  · intro fs0 data parse path hzs hsz hdz h0
    simp only [InflateZip]
    split
    · rename_i fs1 err hm
      have hmk := mkdirAll_lookup fs0 (pathComps (path ++ ".tmp")) 448 hzs
      rw [hm] at hmk
      exact hmk.trans h0
    · rename_i fs1 hm
      have hmk := mkdirAll_lookup fs0 (pathComps (path ++ ".tmp")) 448 hzs
      rw [hm] at hmk
      rw [if_neg (by simp)]
      split
      · rename_i fs2 err hcf
        have hun := createFile_err fs1
          (pathComps (compsToString (pathComps (path ++ ".tmp")) ++ ".zip")) data
          err (by rw [hcf])
        rw [hcf] at hun
        have hun2 : fs2 = fs1 := hun
        rw [fsLookup_removeAll_notPre fs2 hsz, hun2]
        exact hmk.trans h0
      · rename_i fs2 hcf
        split
        · rename_i fs3 hbody
          exact fsLookup_remove_self fs3 _
        · rename_i fs3 err hbody
          rw [fsLookup_removeAll_notPre _ hsz]
          exact fsLookup_remove_self fs3 _

theorem c9_theorem_witness :
    fsLookup (InflateZip [] true [] (fun _ => .error FsErr.badHeader) "/d").1
        ["d.tmp.zip"] = fsLookup ([] : FS) ["d.tmp.zip"] ∧
    fsLookup (InflateZip [] false [] (fun _ => .error FsErr.badHeader) "/d").1
        ["d.tmp.zip"] = none :=
  ⟨c9_theorem.1 [] [] (fun _ => .error FsErr.badHeader) "/d"
      (by decide) (by decide) (by decide)
      (fun kv hkv => absurd hkv (List.not_mem_nil kv)),
    c9_theorem.2 [] [] (fun _ => .error FsErr.badHeader) "/d"
      (by decide) (by decide) (by decide) rfl⟩

/-! ### Claim C10 -/

/-- C10: the containment guard's test is the two-character string prefix
`".."` of the relative path, so it also rejects every entry whose joined
path lies *inside* the root but whose first extra component merely begins
with the characters `".."`: the general conjunct shows any such entry is
rejected with a containment-violation error, and the concrete conjuncts
run the guard and a whole tar extraction on the entry name `"..foo"`
(joined path `/d.tmp/..foo`, inside the root, no parent-traversal
segment). -/
theorem c10_theorem :
    (∀ (tmp : Path) (file : String) (c : String) (ex : List String),
      cleanAbs (tmp ++ splitPathKeep file) = tmp ++ c :: ex →
      startsWithDotDot c = true →
      ensureFileInDir tmp file =
        .error (.outside (compsToString (tmp ++ c :: ex)) (compsToString tmp))) ∧
    (InflateTar [] [⟨TarType.reg, "..foo", "", 420, [1]⟩] ⟨[], 0⟩ "/d").2 =
      some (FsErr.outside "/d.tmp/..foo" "/d.tmp") := by
  refine ⟨?_, by decide⟩
  intro tmp file c ex hjoin hc
  have hne : tmp ++ c :: ex ≠ tmp := by
    intro hh
    have hlen := congrArg List.length hh
    simp at hlen
  have hrel : relComps tmp (tmp ++ c :: ex) = c :: ex := relComps_append tmp (c :: ex)
  have hsw : startsWithDotDot (relString (c :: ex)) = true := by
    unfold relString
    rw [if_neg (by simp)]
    unfold intercalateSlash
    exact foldl_slash_startsWith ex c hc
  simp only [ensureFileInDir, hjoin, hrel, hsw, if_neg hne, if_true]

theorem c10_theorem_witness :
    ensureFileInDir ["d.tmp"] "..foo" =
      .error (FsErr.outside (compsToString (["d.tmp"] ++ ["..foo"]))
        (compsToString ["d.tmp"])) :=
  c10_theorem.1 ["d.tmp"] "..foo" "..foo" [] (by decide) (by decide)
end Archive
